import Mathlib

/-!
Verification development for the deterministic cooperative coroutine runtime
(dispatcher, coroutine handoff, channel, selector, future) implemented in
`internal_workflow.go`.

The Go code is shallowly embedded, one namespace per subsystem:

* `ChanM`  — the channel operations `receiveAsyncImpl`, `sendAsyncImpl`,
  `ReceiveWithMoreFlag`, `SendAsync`, `Close` and the resume loop of the
  blocking `Send`, with always-accepting callbacks (the callbacks produced
  by the blocking `Send`/`Receive` paths).
* `FifoM`  — a trace semantics for a single channel driven by blocking and
  async sends and receives, with ghost logs of accepted sends and of values
  delivered to receivers, used for the FIFO-ordering claims.
* `DispM`  — the dispatcher loop `ExecuteUntilAllBlocked` (coroutine calls
  are abstracted by per-coroutine scripts describing the state of the
  coroutine after each call slice, exactly the information the loop in
  lines 662-708 reads), plus `Close` and `IsDone`.
* `FutM`   — futures: `Set` with its chained-future cascade, and `Chain`.
  Futures live in an id-indexed store so that one future can appear in the
  chained lists of several others, as with the Go pointers.  The cascade is
  modelled with explicit fuel; `SetRes.fuelOut` marks fuel exhaustion and
  is an artifact of the embedding, never of the code.
* `SelM`   — the selector: `Select`'s probe phase over channels carrying
  defunctionalized callbacks.  A callback is `always` (the always-accepting
  callbacks of blocking `Send`/`Receive`) or `sel sid cid` (a selector
  case callback guarded by selector `sid`'s `readyBranch`).  The
  `readyBranch` of the running selector is the `rb : Option Nat` threaded
  through the probe; latched states of other selectors live in the world.
  Future cases are abstracted by their `ready` bit: a future's internal
  channel is fresh and distinct from every channel a selector case can
  name, so registering on it cannot affect any other probe.
-/

namespace ChanM

/-- Values carried by a channel; the Go `interface{}` payloads of the tests
are opaque, a `Nat` is enough. -/
abbrev Val := Nat

/-- `channelImpl` restricted to always-accepting callbacks: `blockedSends`
keeps only the pending values (their callbacks set `valueConsumed` and
return true), `blockedReceives` only the number of waiting receivers. -/
structure Chan where
  size : Nat
  buffer : List Val
  blockedSends : List Val
  blockedReceives : Nat
  closed : Bool
deriving DecidableEq

/-- `receiveAsyncImpl` (without callback registration): buffer first, then
the closed check, then the blocked senders, in the source's order.  Returns
((v, ok, more), updated channel). -/
def receiveAsyncImpl (c : Chan) : (Option Val × Bool × Bool) × Chan :=
  match c.buffer with
  | v :: rest => ((some v, true, true), {c with buffer := rest})
  | [] =>
    if c.closed then ((none, false, false), c)
    else
      match c.blockedSends with
      | v :: rest => ((some v, true, true), {c with blockedSends := rest})
      | [] => ((none, false, true), c)

/-- The synchronous part of `ReceiveWithMoreFlag`: when `ok || !more` it
returns `(v, more)`; otherwise the coroutine registers a callback and
blocks, modelled as `none`. -/
def ReceiveWithMoreFlag (c : Chan) : Option ((Option Val × Bool) × Chan) :=
  match receiveAsyncImpl c with
  | ((v, ok, more), c2) => if ok || !more then some ((v, more), c2) else none

/-- Iterate `ReceiveWithMoreFlag` n times, collecting the returned pairs;
stops early if a receive would block (never happens on a closed channel). -/
def recvs : Nat → Chan → List (Option Val × Bool) × Chan
  | 0, c => ([], c)
  | n + 1, c =>
    match ReceiveWithMoreFlag c with
    | some (r, c2) =>
      match recvs n c2 with
      | (rs, c3) => (r :: rs, c3)
    | none => ([], c)

/-- `sendAsyncImpl`: `none` models the `panic("Closed channel")`.  The
`register` flag tells whether a (value, callback) pair was passed (the
blocking `Send`) or nil (`SendAsync`). -/
def sendAsyncImpl (c : Chan) (v : Val) (register : Bool) : Option (Bool × Chan) :=
  if c.closed then none
  else if c.blockedReceives > 0 then
    some (true, {c with blockedReceives := c.blockedReceives - 1})
  else if c.buffer.length < c.size then
    some (true, {c with buffer := c.buffer ++ [v]})
  else if register then some (false, {c with blockedSends := c.blockedSends ++ [v]})
  else some (false, c)

/-- One turn of the resume loop inside the blocking `Send` (lines 467-477):
the closed check comes first, then the consumed check, else yield again. -/
inductive ResumeRes where
  | panicked : ResumeRes
  | done : ResumeRes
  | again : ResumeRes
deriving DecidableEq

def resumeSend (c : Chan) (valueConsumed : Bool) : ResumeRes :=
  if c.closed then .panicked
  else if valueConsumed then .done
  else .again

/-- `Close`: sets `closed`, delivers `(nil, false)` to every waiting
receiver and invokes every pending sender's callback (which sets that
sender's `valueConsumed`). -/
def Close (c : Chan) : Chan :=
  {c with closed := true, blockedReceives := 0, blockedSends := []}

end ChanM

namespace FifoM

abbrev Val := Nat

/-- Channel state for the FIFO trace semantics (always-accepting
callbacks, as produced by the blocking `Send` and `Receive`). -/
structure Chan where
  size : Nat
  buffer : List Val
  blockedSends : List Val
  blockedReceives : Nat
  closed : Bool
deriving DecidableEq

/-- A channel together with two ghost logs: `sent` lists the values of all
accepted sends in initiation order (delivered directly, buffered, or parked
in `blockedSends`; an async send that returns false is not accepted), and
`delivered` lists the values handed to receivers in delivery order. -/
structure St where
  ch : Chan
  sent : List Val
  delivered : List Val
deriving DecidableEq

/-- One channel operation initiated by some coroutine. -/
inductive Ev where
  | send : Val → Ev
  | sendAsync : Val → Ev
  | recv : Ev
  | recvAsync : Ev
deriving DecidableEq

/-- One step of the trace semantics, mirroring `sendAsyncImpl` (closed
check, waiting receiver, buffer room, park/drop) and `receiveAsyncImpl`
(buffer, closed check, blocked-sender drain, park/drop).  `none` models the
`panic("Closed channel")` of a send on a closed channel. -/
def step (s : St) : Ev → Option St
  | .send v =>
    if s.ch.closed then none
    else if s.ch.blockedReceives > 0 then
      some {s with ch := {s.ch with blockedReceives := s.ch.blockedReceives - 1},
                   sent := s.sent ++ [v], delivered := s.delivered ++ [v]}
    else if s.ch.buffer.length < s.ch.size then
      some {s with ch := {s.ch with buffer := s.ch.buffer ++ [v]}, sent := s.sent ++ [v]}
    else
      some {s with ch := {s.ch with blockedSends := s.ch.blockedSends ++ [v]},
                   sent := s.sent ++ [v]}
  | .sendAsync v =>
    if s.ch.closed then none
    else if s.ch.blockedReceives > 0 then
      some {s with ch := {s.ch with blockedReceives := s.ch.blockedReceives - 1},
                   sent := s.sent ++ [v], delivered := s.delivered ++ [v]}
    else if s.ch.buffer.length < s.ch.size then
      some {s with ch := {s.ch with buffer := s.ch.buffer ++ [v]}, sent := s.sent ++ [v]}
    else some s
  | .recv =>
    match s.ch.buffer with
    | v :: rest =>
      some {s with ch := {s.ch with buffer := rest}, delivered := s.delivered ++ [v]}
    | [] =>
      if s.ch.closed then some s
      else
        match s.ch.blockedSends with
        | v :: rest =>
          some {s with ch := {s.ch with blockedSends := rest},
                       delivered := s.delivered ++ [v]}
        | [] => some {s with ch := {s.ch with blockedReceives := s.ch.blockedReceives + 1}}
  | .recvAsync =>
    match s.ch.buffer with
    | v :: rest =>
      some {s with ch := {s.ch with buffer := rest}, delivered := s.delivered ++ [v]}
    | [] =>
      if s.ch.closed then some s
      else
        match s.ch.blockedSends with
        | v :: rest =>
          some {s with ch := {s.ch with blockedSends := rest},
                       delivered := s.delivered ++ [v]}
        | [] => some s

/-- Run a trace of operations. -/
def run (s : St) : List Ev → Option St
  | [] => some s
  | ev :: rest =>
    match step s ev with
    | some s2 => run s2 rest
    | none => none

/-- Is `ev` a send of either flavour? -/
def isSend : Ev → Bool
  | .send _ => true
  | .sendAsync _ => true
  | _ => false

/-- A trace is orderly when no send is initiated at a moment where the
blocked-sender queue is nonempty while the buffer has free room (exactly
the situations in which `sendAsyncImpl` lets a fresh value overtake a
parked one). -/
def okTrace (s : St) : List Ev → Bool
  | [] => true
  | ev :: rest =>
    (!(isSend ev) || (s.ch.blockedSends.isEmpty || !(s.ch.buffer.length < s.ch.size))) &&
      match step s ev with
      | some s2 => okTrace s2 rest
      | none => false

/-- The empty channel of a given capacity with empty ghost logs. -/
def init (size : Nat) : St :=
  ⟨⟨size, [], [], 0, false⟩, [], []⟩

/-- The FIFO invariant: the values not yet delivered sit, in order, in the
buffer followed by the blocked-sender queue; and a waiting receiver implies
both are empty. -/
def Inv (s : St) : Prop :=
  s.delivered ++ s.ch.buffer ++ s.ch.blockedSends = s.sent ∧
    (s.ch.blockedReceives > 0 → s.ch.buffer = [] ∧ s.ch.blockedSends = [])

/-- Claim C1 as the spec states it: on every trace from an empty channel,
the delivered sequence is a prefix of the accepted-send sequence. -/
def C1Stated : Prop :=
  ∀ (size : Nat) (evs : List Ev) (s2 : St),
    run (init size) evs = some s2 → s2.delivered.isPrefixOf s2.sent = true

/-- The trace of the counterexample: capacity 1; send 1 (buffered), send 2
(parked), receive (gets 1), send 3 (buffered past the parked 2), receive
(gets 3), receive (gets 2). -/
def badTrace : List Ev := [.send 1, .send 2, .recv, .send 3, .recv, .recv]

/-- An orderly trace used as a witness: both sends happen while the
blocked-sender queue is empty. -/
def goodTrace : List Ev := [.send 1, .send 2, .recv, .recv]

end FifoM

namespace DispM

/-- What one call slice of a coroutine does, as observed by the dispatcher
loop: the values of `keptBlocked`, `closed` and `panicError` when
`aboutToBlock` is signalled, plus the coroutines spawned during the slice
(indices into a fixed table of scripts). -/
structure CallStep where
  kept : Bool
  closed : Bool
  panicRes : Option Nat
  spawns : List Nat
deriving DecidableEq

/-- `coroutineState`, as read by `ExecuteUntilAllBlocked`, together with the
script of its remaining call slices. -/
structure Coro where
  keptBlocked : Bool
  closed : Bool
  panicError : Option Nat
  script : List CallStep
deriving DecidableEq

/-- A table assigning each spawnable coroutine its script. -/
abbrev Env := List (List CallStep)

/-- `newState`: a fresh coroutine has `keptBlocked = false`, `closed =
false` and no panic. -/
def freshCoro (s : List CallStep) : Coro := ⟨false, false, none, s⟩

/-- `c.call()`: run the coroutine until it signals `aboutToBlock`; the
effect on its observable state is given by the head of its script (an empty
script stands for a coroutine that just yields again, which leaves it
blocked with `keptBlocked = true`). -/
def callCoro (env : Env) (c : Coro) : Coro × List Coro :=
  match c.script with
  | [] => ({c with keptBlocked := true}, [])
  | st :: rest => (⟨st.kept, st.closed, st.panicRes, rest⟩, st.spawns.map fun i => freshCoro (env.getD i []))

/-- The inner pass of `ExecuteUntilAllBlocked` from index `i` (lines
679-700): call each non-closed coroutine, splice out the ones that closed
(returning a captured panic at once), and fold `keptBlocked` into
`allBlocked`.  Spawned coroutines are appended and visited in the same
pass.  The first `Nat` is fuel (the pass itself need not terminate in Go
if coroutines spawn forever); the result carries the remaining fuel, the
coroutine list, the sequence counter, `allBlocked`, and an early panic. -/
def passFrom (env : Env) : Nat → Nat → List Coro → Nat → Bool →
    Option (Nat × List Coro × Nat × Bool × Option Nat)
  | 0, _, _, _, _ => none
  | f + 1, i, cs, seq, aB =>
    match cs[i]? with
    | none => some (f + 1, cs, seq, aB, none)
    | some c =>
      match (if c.closed then (c, ([] : List Coro)) else callCoro env c) with
      | (c2, sp) =>
        if c2.closed then
          match c2.panicError with
          | some p => some (f, ((cs.set i c2) ++ sp).eraseIdx i, seq + sp.length, aB, some p)
          | none => passFrom env f i (((cs.set i c2) ++ sp).eraseIdx i) (seq + sp.length) false
        else
          passFrom env f (i + 1) ((cs.set i c2) ++ sp) (seq + sp.length) (aB && c2.keptBlocked)

/-- The outer loop of `ExecuteUntilAllBlocked` (lines 673-707): run passes
until a pass both spawned nothing (`lastSequence == d.sequence`) and saw
every survivor `keptBlocked`, or the coroutine list empties, or a panic is
captured.  Returns (coroutines, sequence, the `lastSequence` recorded at
the start of the final pass, the returned panic). -/
def execLoop (env : Env) (pf : Nat) : Nat → List Coro → Nat →
    Option (List Coro × Nat × Nat × Option Nat)
  | 0, _, _ => none
  | f + 1, cs, seq =>
    match passFrom env pf 0 cs seq true with
    | none => none
    | some (_, cs2, seq2, _, some p) => some (cs2, seq2, seq, some p)
    | some (_, cs2, seq2, aB, none) =>
      if cs2.isEmpty then some (cs2, seq2, seq, none)
      else if aB && (seq == seq2) then some (cs2, seq2, seq, none)
      else execLoop env pf f cs2 seq2

/-- The dispatcher state seen by `Close` and `IsDone`. -/
structure Disp where
  coroutines : List Coro
  closed : Bool
deriving DecidableEq

/-- `IsDone`: true when no coroutines remain in the list. -/
def IsDone (d : Disp) : Bool := d.coroutines.isEmpty

/-- `Close` (lines 714-728): mark the dispatcher closed and issue `exit()`
to every non-closed coroutine; `exit` makes the coroutine's goroutine run
`runtime.Goexit`, whose deferred `crt.close()` sets that coroutine's
`closed` flag (with `recover()` returning nil, so no panic is recorded).
No entry is removed from the coroutine list. -/
def Close (d : Disp) : Disp :=
  if d.closed then d
  else
    { coroutines := d.coroutines.map fun c => if c.closed then c else {c with closed := true},
      closed := true }

/-- Claim C2 as the spec states it: whenever `ExecuteUntilAllBlocked`
returns, every live coroutine is kept blocked and the sequence counter did
not move during the final pass. -/
def C2Stated : Prop :=
  ∀ (env : Env) (pf f : Nat) (cs : List Coro) (seq : Nat)
    (cs2 : List Coro) (seq2 lastSeq : Nat) (res : Option Nat),
    execLoop env pf f cs seq = some (cs2, seq2, lastSeq, res) →
      (∀ c ∈ cs2, c.closed = false → c.keptBlocked = true) ∧ lastSeq = seq2

/-- Script table of the C2 counterexample: script 0 closes immediately. -/
def envC2 : Env := [[⟨false, true, none, []⟩]]

/-- Root coroutine of the C2 counterexample: on its first call it spawns a
coroutine with script 0 and completes. -/
def rootC2 : Coro := freshCoro [⟨false, true, none, [0]⟩]

end DispM

namespace FutM

abbrev Val := Nat
abbrev Err := Nat

/-- `futureImpl`: value, error, `ready` flag, its internal channel reduced
to the one bit `Set` touches (`chClosed`, set by `f.channel.Close()`), and
the ids of the futures chained to it.  Futures live in a store indexed by
id so that, as with Go pointers, one future can appear in several chained
lists. -/
structure FutureS where
  value : Option Val
  err : Option Err
  ready : Bool
  chClosed : Bool
  chained : List Nat
deriving DecidableEq

abbrev Store := List FutureS

/-- Result of `Set`: success, the `panic("already set")`, or fuel
exhaustion (an artifact of the bounded embedding of the recursive
cascade, never a behaviour of the code). -/
inductive SetRes where
  | ok : Store → SetRes
  | alreadySet : SetRes
  | fuelOut : SetRes
deriving DecidableEq

mutual

/-- `Set(value, err)` (lines 234-245): panic if already ready; otherwise
store (v, e), mark ready, close the internal channel, then call `Set` with
the same (v, e) on every chained future in order. -/
def setF : Nat → Store → Nat → Option Val → Option Err → SetRes
  | 0, _, _, _, _ => .fuelOut
  | fuel + 1, store, id, v, e =>
    match store[id]? with
    | none => .fuelOut
    | some f =>
      if f.ready then .alreadySet
      else setList fuel (store.set id {f with value := v, err := e, ready := true, chClosed := true}) f.chained v e

/-- The cascade over a chained list: `for _, ch := range f.chained {
ch.Set(f.value, f.err) }`; a panic in any `Set` propagates. -/
def setList : Nat → Store → List Nat → Option Val → Option Err → SetRes
  | 0, _, _, _, _ => .fuelOut
  | _ + 1, store, [], _, _ => .ok store
  | fuel + 1, store, j :: rest, v, e =>
    match setF fuel store j v e with
    | .ok s => setList fuel s rest v e
    | .alreadySet => .alreadySet
    | .fuelOut => .fuelOut

end

/-- Frame relation of a successful `Set(v, e)`: every future is either
untouched or went from not-ready to ready carrying (v, e) with its channel
closed; chained lists never change and the store keeps its length. -/
def SetP (store s : Store) (v : Option Val) (e : Option Err) : Prop :=
  s.length = store.length ∧
  ∀ (j : Nat) (fj : FutureS), store[j]? = some fj →
    ∃ fj2 : FutureS, s[j]? = some fj2 ∧ fj2.chained = fj.chained ∧
    (fj2 = fj ∨
      (fj.ready = false ∧ fj2.ready = true ∧ fj2.value = v ∧ fj2.err = e ∧ fj2.chClosed = true))

/-- Result of `Chain`. `badId` marks a dangling id, which cannot arise from
the Go pointers. -/
inductive ChainRes where
  | ok : Store → ChainRes
  | alreadySet : ChainRes
  | badId : ChainRes
deriving DecidableEq

/-- `Chain(future)` (lines 261-279): panic if this future is ready; if the
other future is not ready, append this future to its chained list
(`ChainFuture`); otherwise copy the other's (value, err) and mark ready —
and nothing else: the internal channel is not closed and no cascade runs. -/
def chainF (store : Store) (fid gid : Nat) : ChainRes :=
  match store[fid]? with
  | none => .badId
  | some f =>
    if f.ready then .alreadySet
    else
      match store[gid]? with
      | none => .badId
      | some g =>
        if g.ready then .ok (store.set fid {f with value := g.value, err := g.err, ready := true})
        else .ok (store.set gid {g with chained := g.chained ++ [fid]})

/-- Claim C5 as the spec states it: chaining to an already-ready future is
equivalent to an immediate `Set` with that future's (value, error). -/
def C5Stated : Prop :=
  ∀ (store : Store) (fid gid : Nat) (f g : FutureS),
    store[fid]? = some f → store[gid]? = some g → f.ready = false → g.ready = true →
      ∃ (fuel : Nat) (s : Store), setF fuel store fid g.value g.err = .ok s ∧ chainF store fid gid = .ok s

/-- Claim C6 as the spec states it: the first `Set(v, e)` on a future
always succeeds, stores (v, e), marks it ready, closes its channel, and
sets every chained future to the same (v, e). -/
def C6Stated : Prop :=
  ∀ (store : Store) (id : Nat) (v : Option Val) (e : Option Err) (f : FutureS),
    store[id]? = some f → f.ready = false →
      ∃ (fuel : Nat) (s : Store), setF fuel store id v e = .ok s ∧
        s[id]? = some {f with value := v, err := e, ready := true, chClosed := true} ∧
        ∀ j ∈ f.chained, ∃ fj, s[j]? = some fj ∧ fj.ready = true ∧ fj.value = v ∧ fj.err = e

/-- C5 counterexample store: future 0 (not ready, open channel, future 2
chained to it), future 1 (ready with value 7), future 2 (not ready). -/
def storeC5 : Store :=
  [⟨none, none, false, false, [2]⟩, ⟨some 7, none, true, true, []⟩, ⟨none, none, false, false, []⟩]

/-- C6 counterexample store: future 1 is already ready yet sits in future
0's chained list, so the first `Set` of future 0 panics mid-cascade. -/
def storeC6 : Store :=
  [⟨none, none, false, false, [1]⟩, ⟨some 9, none, true, true, []⟩]

/-- Witness store for the amended C6: a clean chain 0 -> 1. -/
def storeC6w : Store :=
  [⟨none, none, false, false, [1]⟩, ⟨none, none, false, false, []⟩]

/-- C9 store: future 0 appears in the chained lists of both future 1 and
future 2, none of them ready. -/
def storeC9 : Store :=
  [⟨none, none, false, false, []⟩, ⟨none, none, false, false, [0]⟩, ⟨none, none, false, false, [0]⟩]

/-- The result of `chainF storeC5 0 1`: future 0 copied (7, none) and is
ready, but its channel stays open and future 2 stays unset. -/
def chainC5res : Store :=
  [⟨some 7, none, true, false, [2]⟩, ⟨some 7, none, true, true, []⟩, ⟨none, none, false, false, []⟩]

/-- The result of `setF 5 storeC9 1 (some 3) none`. -/
def setC9res : Store :=
  [⟨some 3, none, true, true, []⟩, ⟨some 3, none, true, true, [0]⟩, ⟨none, none, false, false, [0]⟩]

/-- The result of `setF 4 storeC6w 0 (some 5) none`. -/
def setC6wres : Store :=
  [⟨some 5, none, true, true, [1]⟩, ⟨some 5, none, true, true, []⟩]

end FutM

namespace SelM

abbrev Val := Nat

/-- A receive callback in a channel's `blockedReceives` queue: `always`
accepts any value (the callback of a blocking `Receive`); `sel sid cid` is
the callback a selector `sid` registered for its case `cid`, which accepts
only if that selector's `readyBranch` is still nil and then latches it. -/
inductive RecvCb where
  | always : RecvCb
  | sel : Nat → Nat → RecvCb
deriving DecidableEq

/-- A sender callback in `blockedSends`, same two shapes (the `always`
callback is the `valueConsumed` callback of a blocking `Send`). -/
inductive SendCb where
  | always : SendCb
  | sel : Nat → Nat → SendCb
deriving DecidableEq

/-- `channelImpl` with defunctionalized callbacks. -/
structure ChanS where
  size : Nat
  buffer : List Val
  blockedSends : List (Val × SendCb)
  blockedReceives : List RecvCb
  closed : Bool
deriving DecidableEq

instance : Inhabited ChanS := ⟨⟨0, [], [], [], false⟩⟩

/-- The world: the channels (indexed by id) and, for every selector other
than the running one, whether its `readyBranch` is already latched. -/
structure World where
  chans : List ChanS
  latched : List Bool
deriving DecidableEq

def getCh (w : World) (i : Nat) : ChanS := w.chans.getD i default

def setCh (w : World) (i : Nat) (c : ChanS) : World := {w with chans := w.chans.set i c}

def isLatched (w : World) (sid : Nat) : Bool := w.latched.getD sid false

def setLatched (w : World) (sid : Nat) : World := {w with latched := w.latched.set sid true}

/-- Whether a sender callback would accept, seen from a latch table and
with the running selector's `readyBranch` still nil. -/
def sendCbAccepts (mySid : Nat) (lat : List Bool) : SendCb → Bool
  | .always => true
  | .sel sid _ => if sid == mySid then true else !(lat.getD sid false)

/-- Same for receive callbacks. -/
def recvCbAccepts (mySid : Nat) (lat : List Bool) : RecvCb → Bool
  | .always => true
  | .sel sid _ => if sid == mySid then true else !(lat.getD sid false)

/-- Invoke a sender callback: `true` consumes the value.  A callback of the
running selector (`sid = mySid`) reads and writes the local `readyBranch`
`rb`; one of another selector reads and writes that selector's latch. -/
def invokeSendCb (mySid : Nat) (cb : SendCb) (w : World) (rb : Option Nat) :
    Bool × World × Option Nat :=
  match cb with
  | .always => (true, w, rb)
  | .sel sid cid =>
    if sid == mySid then
      match rb with
      | some _ => (false, w, rb)
      | none => (true, w, some cid)
    else if isLatched w sid then (false, w, rb)
    else (true, setLatched w sid, rb)

/-- Invoke a receive callback with a value (the `more` flag does not affect
acceptance). -/
def invokeRecvCb (mySid : Nat) (cb : RecvCb) (w : World) (rb : Option Nat) :
    Bool × World × Option Nat :=
  match cb with
  | .always => (true, w, rb)
  | .sel sid cid =>
    if sid == mySid then
      match rb with
      | some _ => (false, w, rb)
      | none => (true, w, some cid)
    else if isLatched w sid then (false, w, rb)
    else (true, setLatched w sid, rb)

/-- The `for len(c.blockedSends) > 0` loop of `receiveAsyncImpl`: pop
entries, invoking each callback, until one accepts (returning its value and
the remaining queue) or the queue empties. -/
def drainSends (mySid : Nat) : List (Val × SendCb) → World → Option Nat →
    Option Val × List (Val × SendCb) × World × Option Nat
  | [], w, rb => (none, [], w, rb)
  | p :: rest, w, rb =>
    match invokeSendCb mySid p.2 w rb with
    | (true, w2, rb2) => (some p.1, rest, w2, rb2)
    | (false, w2, rb2) => drainSends mySid rest w2 rb2

/-- The `for len(c.blockedReceives) > 0` loop of `sendAsyncImpl`. -/
def drainRecvs (mySid : Nat) : List RecvCb → World → Option Nat →
    Bool × List RecvCb × World × Option Nat
  | [], w, rb => (false, [], w, rb)
  | cb :: rest, w, rb =>
    match invokeRecvCb mySid cb w rb with
    | (true, w2, rb2) => (true, rest, w2, rb2)
    | (false, w2, rb2) => drainRecvs mySid rest w2 rb2

/-- `receiveAsyncImpl(callback)` (lines 430-450): buffer first, then the
closed check, then drain blocked senders, else register `reg` (when
non-nil).  Returns ((v, ok, more), world, readyBranch). -/
def receiveAsyncImpl (mySid : Nat) (ch : Nat) (reg : Option RecvCb) (w : World) (rb : Option Nat) :
    (Option Val × Bool × Bool) × World × Option Nat :=
  match (getCh w ch).buffer with
  | v :: rest => ((some v, true, true), setCh w ch {getCh w ch with buffer := rest}, rb)
  | [] =>
    if (getCh w ch).closed then ((none, false, false), w, rb)
    else
      match drainSends mySid (getCh w ch).blockedSends w rb with
      | (some v, rest, w2, rb2) =>
        ((some v, true, true), setCh w2 ch {getCh w ch with blockedSends := rest}, rb2)
      | (none, _, w2, rb2) =>
        match reg with
        | some cb =>
          ((none, false, true),
            setCh w2 ch {getCh w ch with blockedSends := [], blockedReceives := (getCh w ch).blockedReceives ++ [cb]}, rb2)
        | none =>
          ((none, false, true), setCh w2 ch {getCh w ch with blockedSends := []}, rb2)

/-- `sendAsyncImpl(v, pair)` (lines 484-504): panic (`none`) on a closed
channel; drain blocked receivers; else buffer if there is room; else park
the pair (when non-nil).  Returns `some (ok, world, readyBranch)`. -/
def sendAsyncImpl (mySid : Nat) (ch : Nat) (v : Val) (pair : Option SendCb) (w : World) (rb : Option Nat) :
    Option (Bool × World × Option Nat) :=
  if (getCh w ch).closed then none
  else
    match drainRecvs mySid (getCh w ch).blockedReceives w rb with
    | (true, rest, w2, rb2) =>
      some (true, setCh w2 ch {getCh w ch with blockedReceives := rest}, rb2)
    | (false, _, w2, rb2) =>
      if (getCh w ch).buffer.length < (getCh w ch).size then
        some (true, setCh w2 ch {getCh w ch with buffer := (getCh w ch).buffer ++ [v], blockedReceives := []}, rb2)
      else
        match pair with
        | some cb =>
          some (false, setCh w2 ch {getCh w ch with blockedReceives := [], blockedSends := (getCh w ch).blockedSends ++ [(v, cb)]}, rb2)
        | none => some (false, setCh w2 ch {getCh w ch with blockedReceives := []}, rb2)

/-- One case of a selector.  Future cases are abstracted by the future's
`ready` bit: their `GetAsync` probes the future's fresh internal channel,
which no other case can name, so only the bit matters to `Select`. -/
inductive SCase where
  | recv : Nat → SCase
  | recvMore : Nat → SCase
  | send : Nat → Val → SCase
  | futureCase : Bool → SCase
deriving DecidableEq

/-- The probe loop of `Select` (lines 775-848): try each case in insertion
order with the corresponding async op, registering the case's callback on
the way; stop at the first case that succeeds synchronously (its handler is
invoked and `Select` returns).  `none` is the panic of a send probe on a
closed channel; `some (some cid, ..)` means case `cid` fired; `some (none,
..)` means the loop fell through. -/
def probeCases (mySid : Nat) : Nat → List SCase → World → Option Nat →
    Option (Option Nat × World × Option Nat)
  | _, [], w, rb => some (none, w, rb)
  | cid, sc :: rest, w, rb =>
    match sc with
    | .recv ch =>
      match receiveAsyncImpl mySid ch (some (.sel mySid cid)) w rb with
      | ((_, ok, more), w2, rb2) =>
        if ok || !more then some (some cid, w2, rb2)
        else probeCases mySid (cid + 1) rest w2 rb2
    | .recvMore ch =>
      match receiveAsyncImpl mySid ch (some (.sel mySid cid)) w rb with
      | ((_, ok, more), w2, rb2) =>
        if ok || !more then some (some cid, w2, rb2)
        else probeCases mySid (cid + 1) rest w2 rb2
    | .send ch v =>
      match sendAsyncImpl mySid ch v (some (.sel mySid cid)) w rb with
      | none => none
      | some (ok, w2, rb2) =>
        if ok then some (some cid, w2, rb2)
        else probeCases mySid (cid + 1) rest w2 rb2
    | .futureCase rdy =>
      if rdy then some (some cid, w, rb)
      else probeCases mySid (cid + 1) rest w rb

/-- The outcome of one `Select` call. `fired cid w` : case `cid`'s handler
(and no other) was invoked synchronously; `defaulted w` : the default
handler (and no other) was invoked; `blockedOn w` : the probe fell through
with no default, so the coroutine enters the yield loop; `panicked` : a
send probe hit a closed channel. -/
inductive SelOutcome where
  | fired : Nat → World → SelOutcome
  | defaulted : World → SelOutcome
  | blockedOn : World → SelOutcome
  | panicked : SelOutcome
deriving DecidableEq

/-- `Select(ctx)` up to its blocking loop (lines 772-861). -/
def runSelect (mySid : Nat) (cases : List SCase) (hasDefault : Bool) (w : World) : SelOutcome :=
  match probeCases mySid 0 cases w none with
  | none => .panicked
  | some (some cid, w2, _) => .fired cid w2
  | some (none, w2, _) => if hasDefault then .defaulted w2 else .blockedOn w2

/-- Whether the `blockedSends` of `c` hold an entry whose callback accepts
(given the latch table and the running selector's `readyBranch` nil). -/
def sendStatus (mySid : Nat) (lat : List Bool) (c : ChanS) : Bool :=
  c.blockedSends.any fun p => sendCbAccepts mySid lat p.2

/-- Whether the `blockedReceives` of `c` hold an accepting callback. -/
def recvStatus (mySid : Nat) (lat : List Bool) (c : ChanS) : Bool :=
  c.blockedReceives.any (recvCbAccepts mySid lat)

/-- Channel `ch` is synchronously ready for a receive case: nonempty
buffer, or closed, or a blocked sender whose callback accepts. -/
def recvReady (mySid : Nat) (w : World) (ch : Nat) : Bool :=
  !(getCh w ch).buffer.isEmpty || (getCh w ch).closed ||
    sendStatus mySid w.latched (getCh w ch)

/-- Channel `ch` is synchronously ready for a send case: open, and either a
blocked receiver accepts or the buffer has room. -/
def sendReady (mySid : Nat) (w : World) (ch : Nat) : Bool :=
  !(getCh w ch).closed && (recvStatus mySid w.latched (getCh w ch) ||
    decide ((getCh w ch).buffer.length < (getCh w ch).size))

/-- Synchronous readiness of one case at the moment `Select` is called. -/
def caseReady (mySid : Nat) (w : World) : SCase → Bool
  | .recv ch => recvReady mySid w ch
  | .recvMore ch => recvReady mySid w ch
  | .send ch _ => sendReady mySid w ch
  | .futureCase rdy => rdy

/-- Index of the first synchronously-ready case, in insertion order. -/
def firstReady (mySid : Nat) (w : World) : List SCase → Option Nat
  | [] => none
  | sc :: rest =>
    if caseReady mySid w sc then some 0 else (firstReady mySid w rest).map (· + 1)

/-- The channels of the send cases. -/
def sendChans : List SCase → List Nat
  | [] => []
  | .send ch _ :: rest => ch :: sendChans rest
  | _ :: rest => sendChans rest

/-- The channels of the receive cases (both flavours). -/
def recvChans : List SCase → List Nat
  | [] => []
  | .recv ch :: rest => ch :: recvChans rest
  | .recvMore ch :: rest => ch :: recvChans rest
  | _ :: rest => recvChans rest

/-- Claim C3 as the spec states it: whenever some case is synchronously
ready when `Select` is called, the earliest such case fires. -/
def C3Stated : Prop :=
  ∀ (mySid : Nat) (w : World) (cases : List SCase) (hasDefault : Bool) (j : Nat),
    firstReady mySid w cases = some j →
      ∃ w2, runSelect mySid cases hasDefault w = .fired j w2

/-- World of the C3 counterexample: channel 0 unbuffered, empty, open;
channel 1 of capacity 1 holding the value 9. -/
def wC3 : World := ⟨[⟨0, [], [], [], false⟩, ⟨1, [9], [], [], false⟩], []⟩

/-- Cases of the C3 counterexample: a send on channel 0, a receive on
channel 0, and a receive on channel 1 — only the last is ready at call
time, but the send probe parks its value on channel 0 and the receive probe
of case 1 then consumes it. -/
def casesC3 : List SCase := [.send 0 5, .recv 0, .recv 1]

/-- Claim C4 as the spec states it: on a selector with one receive case on
an empty open channel plus a default, the default fires and the channel
keeps no registered callback. -/
def C4Stated : Prop :=
  ∀ (mySid ch : Nat) (w : World) (c : ChanS),
    w.chans[ch]? = some c → c.buffer = [] → c.closed = false →
    c.blockedSends = [] → c.blockedReceives = [] →
      ∃ w2, runSelect mySid [SCase.recv ch] true w = .defaulted w2 ∧
        (getCh w2 ch).blockedReceives = []

/-- World of the C4 counterexample: one empty open unbuffered channel. -/
def wC4 : World := ⟨[⟨0, [], [], [], false⟩], []⟩

/-- The world after the C4 Select: the probe's callback is still parked in
channel 0's blocked-receivers queue. -/
def w4res : World := ⟨[⟨0, [], [], [.sel 0 0], false⟩], []⟩

/-- The invariant carried along the probe loop, relating the world `w`
reached after some non-ready probes to the call-time world `w0`.  `SC` and
`RC` collect the channels of the selector's send and receive cases: probes
may only have appended this selector's callbacks to queues on those
channels and drained refusing (latched) callbacks, which changes neither
the buffers, closed flags and sizes, nor the accept status of queues on
channels the remaining probes read. -/
structure Ist (mySid : Nat) (w0 w : World) (SC RC : List Nat) : Prop where
  latch : w.latched = w0.latched
  buf : ∀ ch, (getCh w ch).buffer = (getCh w0 ch).buffer
  clo : ∀ ch, (getCh w ch).closed = (getCh w0 ch).closed
  siz : ∀ ch, (getCh w ch).size = (getCh w0 ch).size
  snd : ∀ ch, ¬ ch ∈ SC →
    sendStatus mySid w0.latched (getCh w ch) = sendStatus mySid w0.latched (getCh w0 ch)
  rcv : ∀ ch, ¬ ch ∈ RC →
    recvStatus mySid w0.latched (getCh w ch) = recvStatus mySid w0.latched (getCh w0 ch)

end SelM

/-! ## Theorems -/

/-- Claim C7: on a closed channel, `ReceiveWithMoreFlag` returns the
buffered values in order with `more = true` until the buffer drains, and
every receive after that returns `(zero value, more = false)`, forever:
`n` successive receives yield exactly the first `n` buffered values
followed by `(none, false)` pairs, leaving the channel with the rest of
its buffer (empty as soon as `n` reaches the buffer length). -/
theorem c7_closed_channel_receives (c : ChanM.Chan) (n : Nat) (h : c.closed = true) :
    ChanM.recvs n c =
      ((c.buffer.take n).map (fun v => (some v, true)) ++
        List.replicate (n - c.buffer.length) ((none : Option ChanM.Val), false),
       {c with buffer := c.buffer.drop n}) := by
  induction n generalizing c with
  | zero => simp [ChanM.recvs]
  | succ n ih =>
    match hb : c.buffer with
    | v :: rest =>
      have ih2 := ih {c with buffer := rest} h
      simp [ChanM.recvs, ChanM.ReceiveWithMoreFlag, ChanM.receiveAsyncImpl, hb, ih2,
        Nat.succ_sub_succ]
    | [] =>
      have ih2 := ih c h
      rw [hb] at ih2
      have hc : ({c with buffer := ([] : List ChanM.Val)} : ChanM.Chan) = c := by rw [← hb]
      simp [ChanM.recvs, ChanM.ReceiveWithMoreFlag, ChanM.receiveAsyncImpl, hb, h, ih2, hc,
        List.replicate_succ]

theorem c7_witness :
    ((⟨1, [4], [], 0, true⟩ : ChanM.Chan).closed = true) ∧
    ChanM.recvs 2 ⟨1, [4], [], 0, true⟩ = ([(some 4, true), (none, false)], ⟨1, [], [], 0, true⟩) :=
  ⟨rfl, by rw [c7_closed_channel_receives ⟨1, [4], [], 0, true⟩ 2 rfl]; decide⟩

/-- Claim C8: on a closed channel both `Send` and `SendAsync` hit the
`panic("Closed channel")` in `sendAsyncImpl` (`none` here), and a `Send`
that was already parked when the channel was closed panics on its next
resume no matter whether `Close` ran its consumed-callback: the resume
loop checks `closed` before `valueConsumed`. -/
theorem c8_send_closed_panics (c c2 : ChanM.Chan) (v : ChanM.Val) (h : c.closed = true) :
    ChanM.sendAsyncImpl c v true = none ∧ ChanM.sendAsyncImpl c v false = none ∧
    (∀ b, ChanM.resumeSend c b = ChanM.ResumeRes.panicked) ∧
    (∀ b, ChanM.resumeSend (ChanM.Close c2) b = ChanM.ResumeRes.panicked) := by
  refine ⟨?_, ?_, ?_, ?_⟩ <;> simp [ChanM.sendAsyncImpl, ChanM.resumeSend, ChanM.Close, h]

theorem c8_witness :
    ((⟨0, [], [], 0, true⟩ : ChanM.Chan).closed = true) ∧
    (ChanM.sendAsyncImpl ⟨0, [], [], 0, true⟩ 5 true = none ∧
     ChanM.sendAsyncImpl ⟨0, [], [], 0, true⟩ 5 false = none ∧
     (∀ b, ChanM.resumeSend ⟨0, [], [], 0, true⟩ b = ChanM.ResumeRes.panicked) ∧
     (∀ b, ChanM.resumeSend (ChanM.Close ⟨0, [], [5], 0, false⟩) b = ChanM.ResumeRes.panicked)) :=
  ⟨rfl, c8_send_closed_panics ⟨0, [], [], 0, true⟩ ⟨0, [], [5], 0, false⟩ 5 rfl⟩

/-- Claim C10: `Close` on a not-yet-closed dispatcher terminates every
live coroutine (each ends closed via the deferred `crt.close()` run by
`runtime.Goexit`) but removes no entry from the coroutine list, so with a
nonempty coroutine list `IsDone` still returns false afterwards. -/
theorem c10_close_terminates_without_removal (d : DispM.Disp)
    (h1 : d.closed = false) (h2 : d.coroutines ≠ []) :
    (DispM.Close d).coroutines.length = d.coroutines.length ∧
    DispM.IsDone (DispM.Close d) = false ∧
    ∀ c ∈ (DispM.Close d).coroutines, c.closed = true := by
  unfold DispM.Close DispM.IsDone
  rw [h1]
  refine ⟨by simp, ?_, ?_⟩
  · simp only [if_neg Bool.false_ne_true]
    simp [List.isEmpty_iff, h2]
  · intro c hc
    simp only [if_neg Bool.false_ne_true] at hc
    rcases List.mem_map.1 hc with ⟨c0, _, rfl⟩
    by_cases hc0 : c0.closed = true <;> simp [hc0]

theorem c10_witness :
    ((⟨[DispM.freshCoro []], false⟩ : DispM.Disp).closed = false ∧
      (⟨[DispM.freshCoro []], false⟩ : DispM.Disp).coroutines ≠ []) ∧
    ((DispM.Close ⟨[DispM.freshCoro []], false⟩).coroutines.length =
        (⟨[DispM.freshCoro []], false⟩ : DispM.Disp).coroutines.length ∧
      DispM.IsDone (DispM.Close ⟨[DispM.freshCoro []], false⟩) = false ∧
      ∀ c ∈ (DispM.Close ⟨[DispM.freshCoro []], false⟩).coroutines, c.closed = true) :=
  ⟨⟨rfl, by decide⟩, c10_close_terminates_without_removal ⟨[DispM.freshCoro []], false⟩ rfl (by decide)⟩

/-- A send step (of either flavour) of an orderly trace preserves the FIFO
invariant. -/
theorem fifo_inv_send (s s2 : FifoM.St) (v : FifoM.Val) (hInv : FifoM.Inv s)
    (hord : s.ch.blockedSends = [] ∨ ¬ s.ch.buffer.length < s.ch.size)
    (hstep : FifoM.step s (.send v) = some s2 ∨ FifoM.step s (.sendAsync v) = some s2) :
    FifoM.Inv s2 := by
  obtain ⟨h1, h2⟩ := hInv
  by_cases hc : s.ch.closed = true
  · rcases hstep with hstep | hstep <;> simp [FifoM.step, hc] at hstep
  · by_cases hr : s.ch.blockedReceives > 0
    · obtain ⟨hb, hbs⟩ := h2 hr
      rcases hstep with hstep | hstep <;>
      · simp [FifoM.step, hc, hr] at hstep
        subst hstep
        rw [hb, hbs] at h1
        refine ⟨?_, fun _ => ⟨hb, hbs⟩⟩
        show (s.delivered ++ [v]) ++ s.ch.buffer ++ s.ch.blockedSends = s.sent ++ [v]
        rw [hb, hbs]
        simp at h1
        simp [h1]
    · by_cases hroom : s.ch.buffer.length < s.ch.size
      · have hbs : s.ch.blockedSends = [] := by
          rcases hord with hord | hord
          · exact hord
          · exact absurd hroom hord
        rcases hstep with hstep | hstep <;>
        · simp [FifoM.step, hc, hr, hroom] at hstep
          subst hstep
          rw [hbs] at h1
          refine ⟨?_, fun hr2 => absurd hr2 hr⟩
          show s.delivered ++ (s.ch.buffer ++ [v]) ++ s.ch.blockedSends = s.sent ++ [v]
          rw [hbs]
          simp only [List.append_nil] at h1
          simp only [List.append_nil, ← List.append_assoc, h1]
      · rcases hstep with hstep | hstep
        · simp [FifoM.step, hc, hr, hroom] at hstep
          subst hstep
          refine ⟨?_, fun hr2 => absurd hr2 hr⟩
          show s.delivered ++ s.ch.buffer ++ (s.ch.blockedSends ++ [v]) = s.sent ++ [v]
          rw [← List.append_assoc, h1]
        · simp [FifoM.step, hc, hr, hroom] at hstep
          subst hstep
          exact ⟨h1, h2⟩

/-- A receive step (of either flavour) preserves the FIFO invariant. -/
theorem fifo_inv_recv (s s2 : FifoM.St) (hInv : FifoM.Inv s)
    (hstep : FifoM.step s .recv = some s2 ∨ FifoM.step s .recvAsync = some s2) :
    FifoM.Inv s2 := by
  obtain ⟨h1, h2⟩ := hInv
  rcases hb : s.ch.buffer with _ | ⟨v, rest⟩
  · by_cases hc : s.ch.closed = true
    · rcases hstep with hstep | hstep <;>
      · simp [FifoM.step, hb, hc] at hstep
        subst hstep
        exact ⟨h1, h2⟩
    · rcases hbs : s.ch.blockedSends with _ | ⟨w, ws⟩
      · rcases hstep with hstep | hstep
        · simp [FifoM.step, hb, hc, hbs] at hstep
          subst hstep
          rw [hb, hbs] at h1
          exact ⟨h1, fun _ => ⟨rfl, rfl⟩⟩
        · simp [FifoM.step, hb, hc, hbs] at hstep
          subst hstep
          exact ⟨h1, h2⟩
      · rcases hstep with hstep | hstep <;>
        · simp [FifoM.step, hb, hc, hbs] at hstep
          subst hstep
          rw [hb, hbs] at h1
          refine ⟨?_, fun hr2 => absurd hbs ?_⟩
          · show (s.delivered ++ [w]) ++ ([] : List FifoM.Val) ++ ws = s.sent
            simp only [List.append_nil, List.nil_append] at h1
            simp only [List.append_nil]
            rw [List.append_assoc, List.singleton_append]
            exact h1
          · rw [(h2 hr2).2]
            simp
  · rcases hstep with hstep | hstep <;>
    · simp [FifoM.step, hb] at hstep
      subst hstep
      refine ⟨?_, fun hr2 => absurd hb ?_⟩
      · show (s.delivered ++ [v]) ++ rest ++ s.ch.blockedSends = s.sent
        rw [hb, List.append_cons] at h1
        exact h1
      · rw [(h2 hr2).1]
        simp

/-- Every orderly trace preserves the FIFO invariant. -/
theorem fifo_inv_run (evs : List FifoM.Ev) : ∀ (s s2 : FifoM.St), FifoM.Inv s →
    FifoM.okTrace s evs = true → FifoM.run s evs = some s2 → FifoM.Inv s2 := by
  induction evs with
  | nil =>
    intro s s2 hInv _ hrun
    simp [FifoM.run] at hrun
    exact hrun ▸ hInv
  | cons ev rest ih =>
    intro s s2 hInv hok hrun
    rcases hstep : FifoM.step s ev with _ | s1
    · rw [FifoM.run, hstep] at hrun
      cases hrun
    · rw [FifoM.run, hstep] at hrun
      rw [FifoM.okTrace, hstep, Bool.and_eq_true] at hok
      have hord : FifoM.isSend ev = true →
          s.ch.blockedSends = [] ∨ ¬ s.ch.buffer.length < s.ch.size := by
        intro hs
        have h := hok.1
        rw [hs] at h
        simp at h
        rcases h with h | h
        · exact Or.inl h
        · exact Or.inr (by omega)
      have hInv1 : FifoM.Inv s1 := by
        cases ev with
        | send v => exact fifo_inv_send s s1 v hInv (hord rfl) (Or.inl hstep)
        | sendAsync v => exact fifo_inv_send s s1 v hInv (hord rfl) (Or.inr hstep)
        | recv => exact fifo_inv_recv s s1 hInv (Or.inl hstep)
        | recvAsync => exact fifo_inv_recv s s1 hInv (Or.inr hstep)
      exact ih s1 s2 hInv1 hok.2 hrun

/-- Claim C1, corrected: the code lets a send that finds buffer room
overtake a sender parked in `blockedSends` (a receive pops the buffer
without promoting parked senders), so FIFO across the buffer and the
blocked-sender queue holds only for interleavings in which no send is
initiated while the blocked-sender queue is nonempty and the buffer has
free room; on every such orderly trace from an empty channel, the
delivered sequence is a prefix of the accepted-send sequence. -/
theorem c1_amended (size : Nat) (evs : List FifoM.Ev) (s2 : FifoM.St)
    (hok : FifoM.okTrace (FifoM.init size) evs = true)
    (hrun : FifoM.run (FifoM.init size) evs = some s2) :
    s2.delivered.isPrefixOf s2.sent = true := by
  have hInv0 : FifoM.Inv (FifoM.init size) := ⟨rfl, fun h => absurd h (by simp [FifoM.init])⟩
  obtain ⟨h1, _⟩ := fifo_inv_run evs (FifoM.init size) s2 hInv0 hok hrun
  rw [List.isPrefixOf_iff_prefix]
  exact ⟨s2.ch.buffer ++ s2.ch.blockedSends, by rw [← h1]; simp [List.append_assoc]⟩

/-- Claim C1 as stated is false: on a channel of capacity 1, the trace
send 1, send 2, receive, send 3, receive, receive delivers 1, 3, 2 though
the sends were initiated in the order 1, 2, 3. -/
theorem c1_counterexample : ¬ FifoM.C1Stated := fun h => by
  have h2 := h 1 FifoM.badTrace ⟨⟨1, [], [], 0, false⟩, [1, 2, 3], [1, 3, 2]⟩ (by decide)
  exact absurd h2 (by decide)

theorem c1_amended_witness :
    (FifoM.okTrace (FifoM.init 1) FifoM.goodTrace = true ∧
      FifoM.run (FifoM.init 1) FifoM.goodTrace =
        some ⟨⟨1, [], [], 0, false⟩, [1, 2], [1, 2]⟩) ∧
    (⟨⟨1, [], [], 0, false⟩, [1, 2], [1, 2]⟩ : FifoM.St).delivered.isPrefixOf
      (⟨⟨1, [], [], 0, false⟩, [1, 2], [1, 2]⟩ : FifoM.St).sent = true :=
  ⟨⟨by decide, by decide⟩, c1_amended 1 FifoM.goodTrace _ (by decide) (by decide)⟩

/-- Membership in `getElem?` gives an in-range index. -/
theorem listh_lt_of_getElem? {α : Type} {l : List α} {i : Nat} {a : α}
    (h : l[i]? = some a) : i < l.length := by
  by_contra hc
  rw [List.getElem?_eq_none_iff.2 (Nat.le_of_not_lt hc)] at h
  cases h

/-- `SetP` is reflexive. -/
theorem futm_setP_rfl (store : FutM.Store) (v : Option FutM.Val) (e : Option FutM.Err) :
    FutM.SetP store store v e :=
  ⟨rfl, fun _ fj h => ⟨fj, h, rfl, Or.inl rfl⟩⟩

/-- `SetP` composes. -/
theorem futm_setP_trans (a b c : FutM.Store) (v : Option FutM.Val) (e : Option FutM.Err)
    (h1 : FutM.SetP a b v e) (h2 : FutM.SetP b c v e) : FutM.SetP a c v e := by
  refine ⟨h2.1.trans h1.1, fun j fj h => ?_⟩
  obtain ⟨f1, hb, hch1, hd1⟩ := h1.2 j fj h
  obtain ⟨f2, hc, hch2, hd2⟩ := h2.2 j f1 hb
  refine ⟨f2, hc, hch2.trans hch1, ?_⟩
  rcases hd1 with rfl | ⟨r1, r2, r3, r4, r5⟩
  · exact hd2
  · rcases hd2 with rfl | ⟨q1, _⟩
    · exact Or.inr ⟨r1, r2, r3, r4, r5⟩
    · rw [r2] at q1
      cases q1

/-- Updating one not-ready future in place satisfies `SetP`. -/
theorem futm_setP_set (store : FutM.Store) (id : Nat) (f : FutM.FutureS)
    (v : Option FutM.Val) (e : Option FutM.Err)
    (hid : store[id]? = some f) (hr : f.ready = false) :
    FutM.SetP store
      (store.set id {f with value := v, err := e, ready := true, chClosed := true}) v e := by
  have hlt : id < store.length := listh_lt_of_getElem? hid
  refine ⟨List.length_set store id _, fun j fj hj => ?_⟩
  by_cases hji : j = id
  · subst hji
    have hfj : fj = f := Option.some.inj (hid.symm.trans hj).symm
    subst hfj
    exact ⟨_, List.getElem?_set_self hlt, rfl, Or.inr ⟨hr, rfl, rfl, rfl, rfl⟩⟩
  · exact ⟨fj, (List.getElem?_set_ne (fun h => hji h.symm)).trans hj, rfl, Or.inl rfl⟩

/-- Frame property of `setF` and `setList`: a successful `Set` only turns
not-ready futures into ready ones carrying (v, e). -/
theorem futm_frame : ∀ fuel : Nat,
    (∀ store id v e s, FutM.setF fuel store id v e = .ok s → FutM.SetP store s v e) ∧
    (∀ store js v e s, FutM.setList fuel store js v e = .ok s → FutM.SetP store s v e) := by
  intro fuel
  induction fuel with
  | zero =>
    constructor <;> intro store x v e s h <;> exact absurd h (by simp [FutM.setF, FutM.setList])
  | succ fuel ih =>
    constructor
    · intro store id v e s h
      rw [FutM.setF] at h
      split at h
      · cases h
      · rename_i f hid
        split at h
        · cases h
        · rename_i hr
          have hr2 : f.ready = false := by
            revert hr
            cases f.ready <;> simp
          exact futm_setP_trans _ _ _ _ _ (futm_setP_set store id f v e hid hr2)
            (ih.2 _ _ _ _ _ h)
    · intro store js v e s h
      match js with
      | [] =>
        rw [FutM.setList] at h
        cases h
        exact futm_setP_rfl _ _ _
      | j :: rest =>
        rw [FutM.setList] at h
        split at h
        · rename_i s1 hF
          exact futm_setP_trans _ _ _ _ _ (ih.1 _ _ _ _ _ hF) (ih.2 _ _ _ _ _ h)
        · cases h
        · cases h

/-- A successful `setF` marks the target future ready with (v, e) and a
closed channel, and the target was not ready before. -/
theorem futm_set_ok_updates (fuel : Nat) (store : FutM.Store) (id : Nat)
    (v : Option FutM.Val) (e : Option FutM.Err) (s : FutM.Store)
    (h : FutM.setF fuel store id v e = .ok s) :
    ∃ f, store[id]? = some f ∧ f.ready = false ∧
      s[id]? = some {f with value := v, err := e, ready := true, chClosed := true} := by
  match fuel with
  | 0 => exact absurd h (by simp [FutM.setF])
  | fuel + 1 =>
    rw [FutM.setF] at h
    split at h
    · cases h
    · rename_i f hid
      split at h
      · cases h
      · rename_i hr
        have hr2 : f.ready = false := by
          revert hr
          cases f.ready <;> simp
        have hlt : id < store.length := listh_lt_of_getElem? hid
        obtain ⟨fj2, hs, _, hd⟩ :=
          ((futm_frame fuel).2 _ _ _ _ _ h).2 id _ (List.getElem?_set_self hlt)
        rcases hd with rfl | ⟨hc, _⟩
        · exact ⟨f, hid, hr2, hs⟩
        · cases hc

/-- A successful `setList` over `js` leaves every listed future ready
with (v, e). -/
theorem futm_setList_mem : ∀ (fuel : Nat) (store : FutM.Store) (js : List Nat)
    (v : Option FutM.Val) (e : Option FutM.Err) (s : FutM.Store),
    FutM.setList fuel store js v e = .ok s →
    ∀ j ∈ js, ∃ fj, s[j]? = some fj ∧ fj.ready = true ∧ fj.value = v ∧ fj.err = e := by
  intro fuel
  induction fuel with
  | zero =>
    intro store js v e s h
    exact absurd h (by simp [FutM.setList])
  | succ fuel ih =>
    intro store js v e s h j hj
    match js, hj with
    | j0 :: rest, hj =>
      rw [FutM.setList] at h
      split at h
      · rename_i s1 hF
        rcases List.mem_cons.1 hj with rfl | hj2
        · obtain ⟨f, hf, hfr, hupd⟩ := futm_set_ok_updates fuel store j v e s1 hF
          obtain ⟨fj2, hs, _, hd⟩ := ((futm_frame fuel).2 _ _ _ _ _ h).2 j _ hupd
          rcases hd with rfl | ⟨hc, _⟩
          · exact ⟨_, hs, rfl, rfl, rfl⟩
          · exact absurd hc (by simp)
        · exact ih s1 rest v e s h j hj2
      · cases h
      · cases h

/-- A successful `setF` sets every future chained to the target to
(v, e). -/
theorem futm_set_ok_chained (fuel : Nat) (store : FutM.Store) (id : Nat)
    (v : Option FutM.Val) (e : Option FutM.Err) (s : FutM.Store) (f : FutM.FutureS)
    (h : FutM.setF fuel store id v e = .ok s) (hf : store[id]? = some f) :
    ∀ j ∈ f.chained, ∃ fj, s[j]? = some fj ∧ fj.ready = true ∧ fj.value = v ∧ fj.err = e := by
  match fuel with
  | 0 => exact absurd h (by simp [FutM.setF])
  | fuel + 1 =>
    rw [FutM.setF] at h
    split at h
    · rename_i hnone
      rw [hf] at hnone
      cases hnone
    · rename_i f2 hid
      rw [hf] at hid
      obtain rfl : f = f2 := Option.some.inj hid
      split at h
      · cases h
      · exact futm_setList_mem fuel _ f.chained v e s h

/-- A successful `setList` requires every listed future to be not ready
when the cascade starts. -/
theorem futm_setList_not_ready : ∀ (fuel : Nat) (store : FutM.Store) (js : List Nat)
    (v : Option FutM.Val) (e : Option FutM.Err) (s : FutM.Store),
    FutM.setList fuel store js v e = .ok s →
    ∀ j ∈ js, ∃ fj, store[j]? = some fj ∧ fj.ready = false := by
  intro fuel
  induction fuel with
  | zero =>
    intro store js v e s h
    exact absurd h (by simp [FutM.setList])
  | succ fuel ih =>
    intro store js v e s h j hj
    match js, hj with
    | j0 :: rest, hj =>
      rw [FutM.setList] at h
      split at h
      · rename_i s1 hF
        rcases List.mem_cons.1 hj with rfl | hj2
        · obtain ⟨f, hf, hfr, _⟩ := futm_set_ok_updates fuel store j v e s1 hF
          exact ⟨f, hf, hfr⟩
        · obtain ⟨fj, hs1, hfr⟩ := ih s1 rest v e s h j hj2
          have hframe := (futm_frame fuel).1 _ _ _ _ _ hF
          have hlt : j < store.length := by
            have h2 : j < s1.length := listh_lt_of_getElem? hs1
            rw [hframe.1] at h2
            exact h2
          rcases hsj : store[j]? with _ | fj0
          · rw [List.getElem?_eq_none_iff] at hsj
            omega
          · obtain ⟨fj2, hs1j, _, hd⟩ := hframe.2 j fj0 hsj
            have hfj2 : fj2 = fj := Option.some.inj (hs1j.symm.trans hs1)
            subst hfj2
            rcases hd with rfl | ⟨_, hc, _⟩
            · exact ⟨fj2, rfl, hfr⟩
            · rw [hfr] at hc
              cases hc
      · cases h
      · cases h

/-- A successful `setF` requires every future chained to the target to be
not ready beforehand. -/
theorem futm_set_chained_not_ready (fuel : Nat) (store : FutM.Store) (id : Nat)
    (v : Option FutM.Val) (e : Option FutM.Err) (s : FutM.Store) (f : FutM.FutureS)
    (h : FutM.setF fuel store id v e = .ok s) (hf : store[id]? = some f) :
    ∀ j ∈ f.chained, ∃ fj, store[j]? = some fj ∧ fj.ready = false := by
  match fuel with
  | 0 => exact absurd h (by simp [FutM.setF])
  | fuel + 1 =>
    rw [FutM.setF] at h
    split at h
    · rename_i hnone
      rw [hf] at hnone
      cases hnone
    · rename_i f2 hid
      rw [hf] at hid
      obtain rfl : f = f2 := Option.some.inj hid
      split at h
      · cases h
      · intro j hj
        obtain ⟨fj, hs1, hfr⟩ := futm_setList_not_ready fuel _ f.chained v e s h j hj
        by_cases hji : j = id
        · subst hji
          have hlt : j < store.length := listh_lt_of_getElem? hf
          rw [List.getElem?_set_self hlt] at hs1
          have hx := Option.some.inj hs1
          rw [← hx] at hfr
          exact absurd hfr (by simp)
        · rw [List.getElem?_set_ne (fun hx => hji hx.symm)] at hs1
          exact ⟨fj, hs1, hfr⟩

/-- Claim C9: if future `fid` sits in the chained lists of two futures and
setting the first succeeded, then setting the second can never succeed —
its cascade reaches `fid` while `fid` is already ready and panics
"already set" (`fuelOut` only marks exhaustion of the embedding's fuel,
which the unbounded Go recursion does not have). -/
theorem c9_theorem (store store2 : FutM.Store) (g1 g2 fid : Nat)
    (v1 : Option FutM.Val) (e1 : Option FutM.Err) (fuel : Nat) (f1 f2 : FutM.FutureS)
    (h1 : store[g1]? = some f1) (h2 : store[g2]? = some f2)
    (hm1 : fid ∈ f1.chained) (hm2 : fid ∈ f2.chained)
    (hset : FutM.setF fuel store g1 v1 e1 = .ok store2) :
    ∀ (fuel2 : Nat) (v2 : Option FutM.Val) (e2 : Option FutM.Err),
      FutM.setF fuel2 store2 g2 v2 e2 = .alreadySet ∨
      FutM.setF fuel2 store2 g2 v2 e2 = .fuelOut := by
  intro fuel2 v2 e2
  cases hres : FutM.setF fuel2 store2 g2 v2 e2 with
  | ok s =>
    exfalso
    obtain ⟨f2b, hg2b, hch, _⟩ := ((futm_frame fuel).1 _ _ _ _ _ hset).2 g2 f2 h2
    obtain ⟨fjA, hfidA, hrA⟩ := futm_set_chained_not_ready fuel2 store2 g2 v2 e2 s f2b
      hres hg2b fid (by rw [hch]; exact hm2)
    obtain ⟨fjB, hfidB, hrB, _, _⟩ :=
      futm_set_ok_chained fuel store g1 v1 e1 store2 f1 hset h1 fid hm1
    have hAB : fjA = fjB := Option.some.inj (hfidA.symm.trans hfidB)
    rw [hAB, hrB] at hrA
    cases hrA
  | alreadySet => exact Or.inl rfl
  | fuelOut => exact Or.inr rfl

theorem c9_witness :
    (FutM.setF 5 FutM.storeC9 1 (some 3) none = .ok FutM.setC9res) ∧
    (FutM.setF 5 FutM.setC9res 2 (some 4) none = .alreadySet ∨
     FutM.setF 5 FutM.setC9res 2 (some 4) none = .fuelOut) :=
  ⟨by decide, c9_theorem FutM.storeC9 FutM.setC9res 1 2 0 (some 3) none 5
      ⟨none, none, false, false, [0]⟩ ⟨none, none, false, false, [0]⟩
      (by decide) (by decide) (by decide) (by decide) (by decide) 5 (some 4) none⟩

/-- Claim C6, corrected: `Set` on a ready future panics "already set"; a
first `Set(v, e)` that completes without panic stores (v, e), marks the
future ready, closes its internal channel and sets every chained future to
the same (v, e).  Unlike the claim's unconditional wording, the cascade can
itself panic — when some chained future is already ready — in which case
not every chained future ends set (see the counterexample). -/
theorem c6_amended (store : FutM.Store) (id : Nat) (v : Option FutM.Val) (e : Option FutM.Err) :
    (∀ (f : FutM.FutureS) (fuel : Nat), store[id]? = some f → f.ready = true →
      FutM.setF (fuel + 1) store id v e = .alreadySet) ∧
    (∀ (fuel : Nat) (s : FutM.Store) (f : FutM.FutureS),
      FutM.setF fuel store id v e = .ok s → store[id]? = some f →
      f.ready = false ∧
      s[id]? = some {f with value := v, err := e, ready := true, chClosed := true} ∧
      ∀ j ∈ f.chained, ∃ fj, s[j]? = some fj ∧ fj.ready = true ∧ fj.value = v ∧ fj.err = e) := by
  constructor
  · intro f fuel hf hr
    simp [FutM.setF, hf, hr]
  · intro fuel s f hok hf
    obtain ⟨f2, hf2, hr2, hupd⟩ := futm_set_ok_updates fuel store id v e s hok
    obtain rfl : f = f2 := Option.some.inj (hf.symm.trans hf2)
    exact ⟨hr2, hupd, futm_set_ok_chained fuel store id v e s f hok hf⟩

/-- Claim C6 as stated is false: in `storeC6` future 1 is already ready
and chained to future 0, so the first `Set` of future 0 panics mid-cascade
and future 1 is not set to the new (value, error). -/
theorem c6_counterexample : ¬ FutM.C6Stated := fun h => by
  obtain ⟨fuel, s, hok, _, _⟩ :=
    h FutM.storeC6 0 (some 5) none ⟨none, none, false, false, [1]⟩ (by decide) (by decide)
  obtain ⟨fj, hfj, hr⟩ := futm_set_chained_not_ready fuel FutM.storeC6 0 (some 5) none s
    ⟨none, none, false, false, [1]⟩ hok (by decide) 1 (by decide)
  have hx : FutM.storeC6[1]? = some ⟨some 9, none, true, true, []⟩ := by decide
  obtain rfl : fj = ⟨some 9, none, true, true, []⟩ := Option.some.inj (hfj.symm.trans hx)
  cases hr

theorem c6_amended_witness :
    (FutM.setF 4 FutM.storeC6w 0 (some 5) none = .ok FutM.setC6wres) ∧
    ((⟨none, none, false, false, [1]⟩ : FutM.FutureS).ready = false ∧
     FutM.setC6wres[0]? = some {(⟨none, none, false, false, [1]⟩ : FutM.FutureS) with
        value := some 5, err := none, ready := true, chClosed := true} ∧
     ∀ j ∈ (⟨none, none, false, false, [1]⟩ : FutM.FutureS).chained,
       ∃ fj, FutM.setC6wres[j]? = some fj ∧ fj.ready = true ∧ fj.value = some 5 ∧ fj.err = none) :=
  ⟨by decide, (c6_amended FutM.storeC6w 0 (some 5) none).2 4 FutM.setC6wres
      ⟨none, none, false, false, [1]⟩ (by decide) (by decide)⟩

/-- Claim C5, corrected: `Chain` on an already-ready future copies its
(value, error) and marks this future ready synchronously — but, unlike
`Set`, it neither closes this future's internal channel nor cascades to
the futures chained to this one: every other store entry is untouched. -/
theorem c5_amended (store : FutM.Store) (fid gid : Nat) (f g : FutM.FutureS)
    (h1 : store[fid]? = some f) (h2 : store[gid]? = some g)
    (hf : f.ready = false) (hg : g.ready = true) :
    FutM.chainF store fid gid =
      .ok (store.set fid {f with value := g.value, err := g.err, ready := true}) ∧
    ({f with value := g.value, err := g.err, ready := true} : FutM.FutureS).chClosed =
      f.chClosed ∧
    ({f with value := g.value, err := g.err, ready := true} : FutM.FutureS).chained =
      f.chained ∧
    ∀ j : Nat, j ≠ fid →
      (store.set fid {f with value := g.value, err := g.err, ready := true})[j]? =
        store[j]? :=
  ⟨by simp [FutM.chainF, h1, h2, hf, hg], rfl, rfl,
    fun _ hj => List.getElem?_set_ne (fun hx => hj hx.symm)⟩

/-- Claim C5 as stated is false: chaining future 0 to the ready future 1
in `storeC5` leaves future 0's channel open and the chained future 2
unset, while any successful `Set` of future 0 with the same (value, error)
closes the channel — the two results differ. -/
theorem c5_counterexample : ¬ FutM.C5Stated := fun h => by
  obtain ⟨fuel, s, hset, hchain⟩ := h FutM.storeC5 0 1
    ⟨none, none, false, false, [2]⟩ ⟨some 7, none, true, true, []⟩
    (by decide) (by decide) (by decide) (by decide)
  have hc : FutM.chainF FutM.storeC5 0 1 = .ok FutM.chainC5res := by decide
  rw [hc] at hchain
  have hcs : FutM.chainC5res = s := by
    injection hchain
  subst hcs
  obtain ⟨f0, hf0, _, hupd⟩ := futm_set_ok_updates fuel FutM.storeC5 0 (some 7) none _ hset
  have hx : FutM.storeC5[0]? = some ⟨none, none, false, false, [2]⟩ := by decide
  obtain rfl : f0 = ⟨none, none, false, false, [2]⟩ := Option.some.inj (hf0.symm.trans hx)
  exact absurd hupd (by decide)

theorem c5_amended_witness :
    FutM.chainF FutM.storeC5 0 1 = .ok FutM.chainC5res ∧
    (FutM.chainC5res[0]?).map FutM.FutureS.chClosed = some false := by
  constructor
  · rw [(c5_amended FutM.storeC5 0 1 ⟨none, none, false, false, [2]⟩
      ⟨some 7, none, true, true, []⟩ (by decide) (by decide) rfl rfl).1]
    decide
  · decide

/-- Main property of one dispatcher pass: if it completes with
`allBlocked = true` and no panic, then the accumulator was true on entry,
every coroutine from index `i` on is live and kept blocked, and the
entries below `i` were not touched. -/
theorem dispm_pass_main (env : DispM.Env) : ∀ (f i : Nat) (cs : List DispM.Coro) (seq : Nat)
    (aB : Bool) (f2 : Nat) (cs2 : List DispM.Coro) (seq2 : Nat),
    DispM.passFrom env f i cs seq aB = some (f2, cs2, seq2, true, none) →
    aB = true ∧
    (∀ (j : Nat) (c : DispM.Coro), i ≤ j → cs2[j]? = some c →
      c.keptBlocked = true ∧ c.closed = false) ∧
    (∀ j : Nat, j < i → cs2[j]? = cs[j]?) := by
  intro f
  induction f with
  | zero =>
    intro i cs seq aB f2 cs2 seq2 h
    exact absurd h (by simp [DispM.passFrom])
  | succ f ih =>
    intro i cs seq aB f2 cs2 seq2 h
    rw [DispM.passFrom] at h
    split at h
    · rename_i hnone
      simp only [Option.some.injEq, Prod.mk.injEq] at h
      obtain ⟨-, h2, -, h4, -⟩ := h
      subst h2
      refine ⟨h4, ?_, fun _ _ => rfl⟩
      intro j c hij hjc
      rw [List.getElem?_eq_none_iff] at hnone
      rw [List.getElem?_eq_none_iff.2 (le_trans hnone hij)] at hjc
      cases hjc
    · rename_i c hsome
      split at h
      rename_i c2 sp hcall
      split at h
      · split at h
        · simp at h
        · have := (ih _ _ _ _ _ _ _ h).1
          cases this
      · rename_i hcl
        have hcl2 : c2.closed = false := by
          revert hcl
          cases c2.closed <;> simp
        obtain ⟨hab, hrest, hpre⟩ := ih _ _ _ _ _ _ _ h
        rw [Bool.and_eq_true] at hab
        have hlt : i < cs.length := listh_lt_of_getElem? hsome
        have hat : cs2[i]? = some c2 := by
          rw [hpre i (Nat.lt_succ_self i)]
          rw [List.getElem?_append]
          rw [if_pos (by rw [List.length_set]; exact hlt)]
          exact List.getElem?_set_self hlt
        refine ⟨hab.1, ?_, ?_⟩
        · intro j c3 hij hjc
          rcases Nat.eq_or_lt_of_le hij with rfl | hlt2
          · obtain rfl : c3 = c2 := Option.some.inj (hjc.symm.trans hat)
            exact ⟨hab.2, hcl2⟩
          · exact hrest j c3 hlt2 hjc
        · intro j hji
          rw [hpre j (Nat.lt_trans hji (Nat.lt_succ_self i))]
          rw [List.getElem?_append, if_pos (by rw [List.length_set]; omega)]
          exact List.getElem?_set_ne (fun hx => (Nat.ne_of_gt hji) hx)

/-- Claim C2, corrected: when `ExecuteUntilAllBlocked` returns without a
panic and coroutines remain, every remaining coroutine is live with
`keptBlocked = true` and the sequence counter did not move during the
final pass. -/
theorem c2_amended (env : DispM.Env) (pf : Nat) : ∀ (f : Nat) (cs : List DispM.Coro)
    (seq : Nat) (cs2 : List DispM.Coro) (seq2 lastSeq : Nat),
    DispM.execLoop env pf f cs seq = some (cs2, seq2, lastSeq, none) → cs2 ≠ [] →
    (∀ c ∈ cs2, c.keptBlocked = true ∧ c.closed = false) ∧ lastSeq = seq2 := by
  intro f
  induction f with
  | zero =>
    intro cs seq cs2 seq2 lastSeq h
    exact absurd h (by simp [DispM.execLoop])
  | succ f ih =>
    intro cs seq cs2 seq2 lastSeq h hne
    rw [DispM.execLoop] at h
    split at h
    · cases h
    · simp at h
    · rename_i fx cs3 seq3 aB hp
      split at h
      · rename_i hemp
        simp only [Option.some.injEq, Prod.mk.injEq] at h
        obtain ⟨rfl, -, -, -⟩ := h
        exact absurd (List.isEmpty_iff.1 hemp) hne
      · split at h
        · rename_i hcond
          rw [Bool.and_eq_true] at hcond
          simp only [Option.some.injEq, Prod.mk.injEq] at h
          obtain ⟨rfl, rfl, rfl, -⟩ := h
          rw [hcond.1] at hp
          obtain ⟨-, hall, -⟩ := dispm_pass_main env pf 0 cs seq true _ _ _ hp
          refine ⟨?_, by simpa using hcond.2⟩
          intro c hc
          obtain ⟨j, hj⟩ := List.getElem?_of_mem hc
          exact hall j c (Nat.zero_le j) hj
        · exact ih _ _ _ _ _ h hne

/-- Claim C2 as stated is false: a run in which the root coroutine spawns
a child and both complete during the very pass returns nil with an empty
coroutine list although the sequence counter moved during that final pass
(1 to 2). -/
theorem c2_counterexample : ¬ DispM.C2Stated := fun h => by
  have h2 := (h DispM.envC2 9 5 [DispM.rootC2] 1 [] 2 1 none (by decide)).2
  exact absurd h2 (by decide)

theorem c2_amended_witness :
    (DispM.execLoop [] 3 3 [DispM.freshCoro []] 0 =
        some ([⟨true, false, none, []⟩], 0, 0, none) ∧
      ([(⟨true, false, none, []⟩ : DispM.Coro)] : List DispM.Coro) ≠ []) ∧
    ((∀ c ∈ [(⟨true, false, none, []⟩ : DispM.Coro)],
        c.keptBlocked = true ∧ c.closed = false) ∧ (0 : Nat) = 0) :=
  ⟨⟨by decide, by decide⟩,
    c2_amended [] 3 3 [DispM.freshCoro []] 0 [⟨true, false, none, []⟩] 0 0
      (by decide) (by decide)⟩

/-- Reading an untouched channel after `setCh`. -/
theorem selm_getCh_setCh_ne (w : SelM.World) (i j : Nat) (c : SelM.ChanS) (h : j ≠ i) :
    SelM.getCh (SelM.setCh w i c) j = SelM.getCh w j := by
  rw [SelM.getCh, SelM.getCh, SelM.setCh]
  rw [List.getD_eq_getElem?_getD, List.getD_eq_getElem?_getD]
  rw [List.getElem?_set_ne (fun hx => h hx.symm)]

/-- Reading the channel just written by `setCh` (in range). -/
theorem selm_getCh_setCh_self (w : SelM.World) (i : Nat) (c : SelM.ChanS)
    (h : i < w.chans.length) : SelM.getCh (SelM.setCh w i c) i = c := by
  rw [SelM.getCh, SelM.setCh]
  rw [List.getD_eq_getElem?_getD, List.getElem?_set_self h]
  rfl

/-- `setCh` out of range is the identity. -/
theorem selm_setCh_oob (w : SelM.World) (i : Nat) (c : SelM.ChanS)
    (h : ¬ i < w.chans.length) : SelM.setCh w i c = w := by
  rw [SelM.setCh, List.set_eq_of_length_le (Nat.le_of_not_lt h)]

/-- `setCh` keeps the latch table. -/
theorem selm_setCh_latched (w : SelM.World) (i : Nat) (c : SelM.ChanS) :
    (SelM.setCh w i c).latched = w.latched := rfl

/-- Writing back a channel that keeps its buffer, closed flag and size,
and whose queue accept-statuses are either irrelevant (the channel belongs
to the selector's own send or receive channels) or unchanged, preserves
the probe invariant. -/
theorem selm_Ist_update (mySid : Nat) (w0 w : SelM.World) (SC RC : List Nat) (ch : Nat)
    (hI : SelM.Ist mySid w0 w SC RC) (c2 : SelM.ChanS)
    (hbuf : c2.buffer = (SelM.getCh w ch).buffer)
    (hclo : c2.closed = (SelM.getCh w ch).closed)
    (hsiz : c2.size = (SelM.getCh w ch).size)
    (hsnd : ch ∈ SC ∨ SelM.sendStatus mySid w0.latched c2 =
      SelM.sendStatus mySid w0.latched (SelM.getCh w0 ch))
    (hrcv : ch ∈ RC ∨ SelM.recvStatus mySid w0.latched c2 =
      SelM.recvStatus mySid w0.latched (SelM.getCh w0 ch)) :
    SelM.Ist mySid w0 (SelM.setCh w ch c2) SC RC := by
  by_cases hin : ch < w.chans.length
  · refine ⟨(selm_setCh_latched w ch c2).trans hI.latch, ?_, ?_, ?_, ?_, ?_⟩
    · intro ch2
      by_cases he : ch2 = ch
      · subst he
        rw [selm_getCh_setCh_self w ch2 c2 hin, hbuf]
        exact hI.buf ch2
      · rw [selm_getCh_setCh_ne w ch ch2 c2 he]
        exact hI.buf ch2
    · intro ch2
      by_cases he : ch2 = ch
      · subst he
        rw [selm_getCh_setCh_self w ch2 c2 hin, hclo]
        exact hI.clo ch2
      · rw [selm_getCh_setCh_ne w ch ch2 c2 he]
        exact hI.clo ch2
    · intro ch2
      by_cases he : ch2 = ch
      · subst he
        rw [selm_getCh_setCh_self w ch2 c2 hin, hsiz]
        exact hI.siz ch2
      · rw [selm_getCh_setCh_ne w ch ch2 c2 he]
        exact hI.siz ch2
    · intro ch2 hch2
      by_cases he : ch2 = ch
      · subst he
        rw [selm_getCh_setCh_self w ch2 c2 hin]
        rcases hsnd with hin2 | heq
        · exact absurd hin2 hch2
        · exact heq
      · rw [selm_getCh_setCh_ne w ch ch2 c2 he]
        exact hI.snd ch2 hch2
    · intro ch2 hch2
      by_cases he : ch2 = ch
      · subst he
        rw [selm_getCh_setCh_self w ch2 c2 hin]
        rcases hrcv with hin2 | heq
        · exact absurd hin2 hch2
        · exact heq
      · rw [selm_getCh_setCh_ne w ch ch2 c2 he]
        exact hI.rcv ch2 hch2
  · rw [selm_setCh_oob w ch c2 hin]
    exact hI

/-- A sender callback that the latch table refuses leaves everything
unchanged when invoked. -/
theorem selm_invokeSend_refuse (mySid : Nat) (cb : SelM.SendCb) (w : SelM.World)
    (h : SelM.sendCbAccepts mySid w.latched cb = false) :
    SelM.invokeSendCb mySid cb w none = (false, w, none) := by
  cases cb with
  | always => exact absurd h (by simp [SelM.sendCbAccepts])
  | sel sid cid =>
    rw [SelM.sendCbAccepts] at h
    rw [SelM.invokeSendCb]
    by_cases hs : (sid == mySid) = true
    · rw [if_pos hs] at h
      cases h
    · rw [if_neg hs] at h
      rw [if_neg hs]
      have h2 : SelM.isLatched w sid = true := by
        rw [SelM.isLatched]
        revert h
        cases w.latched.getD sid false <;> simp
      rw [if_pos h2]

/-- A sender callback that accepts consumes the value. -/
theorem selm_invokeSend_accept (mySid : Nat) (cb : SelM.SendCb) (w : SelM.World)
    (h : SelM.sendCbAccepts mySid w.latched cb = true) :
    ∃ w2 rb2, SelM.invokeSendCb mySid cb w none = (true, w2, rb2) := by
  cases cb with
  | always => exact ⟨w, none, rfl⟩
  | sel sid cid =>
    rw [SelM.sendCbAccepts] at h
    rw [SelM.invokeSendCb]
    by_cases hs : (sid == mySid) = true
    · rw [if_pos hs]
      exact ⟨w, some cid, rfl⟩
    · rw [if_neg hs] at h
      rw [if_neg hs]
      have h2 : SelM.isLatched w sid = false := by
        rw [SelM.isLatched]
        revert h
        cases w.latched.getD sid false <;> simp
      rw [if_neg (by rw [h2]; exact Bool.false_ne_true)]
      exact ⟨SelM.setLatched w sid, none, rfl⟩

/-- A receive callback that the latch table refuses leaves everything
unchanged when invoked. -/
theorem selm_invokeRecv_refuse (mySid : Nat) (cb : SelM.RecvCb) (w : SelM.World)
    (h : SelM.recvCbAccepts mySid w.latched cb = false) :
    SelM.invokeRecvCb mySid cb w none = (false, w, none) := by
  cases cb with
  | always => exact absurd h (by simp [SelM.recvCbAccepts])
  | sel sid cid =>
    rw [SelM.recvCbAccepts] at h
    rw [SelM.invokeRecvCb]
    by_cases hs : (sid == mySid) = true
    · rw [if_pos hs] at h
      cases h
    · rw [if_neg hs] at h
      rw [if_neg hs]
      have h2 : SelM.isLatched w sid = true := by
        rw [SelM.isLatched]
        revert h
        cases w.latched.getD sid false <;> simp
      rw [if_pos h2]

/-- A receive callback that accepts consumes the value. -/
theorem selm_invokeRecv_accept (mySid : Nat) (cb : SelM.RecvCb) (w : SelM.World)
    (h : SelM.recvCbAccepts mySid w.latched cb = true) :
    ∃ w2 rb2, SelM.invokeRecvCb mySid cb w none = (true, w2, rb2) := by
  cases cb with
  | always => exact ⟨w, none, rfl⟩
  | sel sid cid =>
    rw [SelM.recvCbAccepts] at h
    rw [SelM.invokeRecvCb]
    by_cases hs : (sid == mySid) = true
    · rw [if_pos hs]
      exact ⟨w, some cid, rfl⟩
    · rw [if_neg hs] at h
      rw [if_neg hs]
      have h2 : SelM.isLatched w sid = false := by
        rw [SelM.isLatched]
        revert h
        cases w.latched.getD sid false <;> simp
      rw [if_neg (by rw [h2]; exact Bool.false_ne_true)]
      exact ⟨SelM.setLatched w sid, none, rfl⟩

/-- Draining a blocked-sender queue with no accepting callback removes the
whole queue and changes nothing else. -/
theorem selm_drainSends_none (mySid : Nat) : ∀ (l : List (SelM.Val × SelM.SendCb)) (w : SelM.World),
    (l.any fun p => SelM.sendCbAccepts mySid w.latched p.2) = false →
    SelM.drainSends mySid l w none = (none, [], w, none) := by
  intro l
  induction l with
  | nil => intro w _; rfl
  | cons p rest ih =>
    intro w hany
    rw [List.any_cons, Bool.or_eq_false_iff] at hany
    rw [SelM.drainSends, selm_invokeSend_refuse mySid p.2 w hany.1]
    exact ih w hany.2

/-- Draining a blocked-sender queue that holds an accepting callback
returns a value. -/
theorem selm_drainSends_some (mySid : Nat) : ∀ (l : List (SelM.Val × SelM.SendCb)) (w : SelM.World),
    (l.any fun p => SelM.sendCbAccepts mySid w.latched p.2) = true →
    ∃ v rest w2 rb2, SelM.drainSends mySid l w none = (some v, rest, w2, rb2) := by
  intro l
  induction l with
  | nil => intro w hany; cases hany
  | cons p rest ih =>
    intro w hany
    cases hacc : SelM.sendCbAccepts mySid w.latched p.2 with
    | true =>
      obtain ⟨w2, rb2, hinv⟩ := selm_invokeSend_accept mySid p.2 w hacc
      rw [SelM.drainSends, hinv]
      exact ⟨p.1, rest, w2, rb2, rfl⟩
    | false =>
      rw [List.any_cons, hacc, Bool.false_or] at hany
      rw [SelM.drainSends, selm_invokeSend_refuse mySid p.2 w hacc]
      exact ih w hany

/-- Draining a blocked-receiver queue with no accepting callback removes
the whole queue and changes nothing else. -/
theorem selm_drainRecvs_none (mySid : Nat) : ∀ (l : List SelM.RecvCb) (w : SelM.World),
    (l.any (SelM.recvCbAccepts mySid w.latched)) = false →
    SelM.drainRecvs mySid l w none = (false, [], w, none) := by
  intro l
  induction l with
  | nil => intro w _; rfl
  | cons cb rest ih =>
    intro w hany
    rw [List.any_cons, Bool.or_eq_false_iff] at hany
    rw [SelM.drainRecvs, selm_invokeRecv_refuse mySid cb w hany.1]
    exact ih w hany.2

/-- Draining a blocked-receiver queue that holds an accepting callback
delivers the value. -/
theorem selm_drainRecvs_some (mySid : Nat) : ∀ (l : List SelM.RecvCb) (w : SelM.World),
    (l.any (SelM.recvCbAccepts mySid w.latched)) = true →
    ∃ rest w2 rb2, SelM.drainRecvs mySid l w none = (true, rest, w2, rb2) := by
  intro l
  induction l with
  | nil => intro w hany; cases hany
  | cons cb rest ih =>
    intro w hany
    cases hacc : SelM.recvCbAccepts mySid w.latched cb with
    | true =>
      obtain ⟨w2, rb2, hinv⟩ := selm_invokeRecv_accept mySid cb w hacc
      rw [SelM.drainRecvs, hinv]
      exact ⟨rest, w2, rb2, rfl⟩
    | false =>
      rw [List.any_cons, hacc, Bool.false_or] at hany
      rw [SelM.drainRecvs, selm_invokeRecv_refuse mySid cb w hacc]
      exact ih w hany

/-- Probing a receive case whose channel is ready at call time succeeds
synchronously (`ok || !more`). -/
theorem selm_recv_probe_ready (mySid : Nat) (w0 w : SelM.World) (SC RC : List Nat) (ch : Nat)
    (reg : SelM.RecvCb) (hI : SelM.Ist mySid w0 w SC RC) (hch : ¬ ch ∈ SC)
    (hr : SelM.recvReady mySid w0 ch = true) :
    ∃ v2 ok more w2 rb2,
      SelM.receiveAsyncImpl mySid ch (some reg) w none = ((v2, ok, more), w2, rb2) ∧
      (ok || !more) = true := by
  rcases hbw : (SelM.getCh w ch).buffer with _ | ⟨v, rest⟩
  · cases hcw : (SelM.getCh w ch).closed with
    | true =>
      refine ⟨none, false, false, w, none, ?_, rfl⟩
      simp [SelM.receiveAsyncImpl, hbw, hcw]
    | false =>
      have hb0 : (SelM.getCh w0 ch).buffer = [] := by rw [← hI.buf ch]; exact hbw
      have hc0 : (SelM.getCh w0 ch).closed = false := by rw [← hI.clo ch]; exact hcw
      have hss : SelM.sendStatus mySid w0.latched (SelM.getCh w0 ch) = true := by
        rw [SelM.recvReady, hb0, hc0] at hr
        simpa using hr
      have hssw : SelM.sendStatus mySid w.latched (SelM.getCh w ch) = true := by
        rw [hI.latch, hI.snd ch hch]
        exact hss
      rw [SelM.sendStatus] at hssw
      obtain ⟨v2, rest2, w2, rb2, hd⟩ :=
        selm_drainSends_some mySid (SelM.getCh w ch).blockedSends w hssw
      refine ⟨some v2, true, true, SelM.setCh w2 ch {SelM.getCh w ch with blockedSends := rest2}, rb2, ?_, rfl⟩
      simp [SelM.receiveAsyncImpl, hbw, hcw, hd]
  · refine ⟨some v, true, true, SelM.setCh w ch {SelM.getCh w ch with buffer := rest}, none, ?_, rfl⟩
    simp [SelM.receiveAsyncImpl, hbw]

/-- Probing a receive case whose channel is not ready registers the
callback, refuses no accepting value, and preserves the invariant. -/
theorem selm_recv_probe_not_ready (mySid : Nat) (w0 w : SelM.World) (SC RC : List Nat)
    (ch : Nat) (reg : SelM.RecvCb) (hI : SelM.Ist mySid w0 w SC RC)
    (hchS : ¬ ch ∈ SC) (hchR : ch ∈ RC)
    (hr : SelM.recvReady mySid w0 ch = false) :
    ∃ w2, SelM.receiveAsyncImpl mySid ch (some reg) w none = ((none, false, true), w2, none) ∧
      SelM.Ist mySid w0 w2 SC RC := by
  rw [SelM.recvReady, Bool.or_eq_false_iff, Bool.or_eq_false_iff] at hr
  obtain ⟨⟨h1, h2⟩, h3⟩ := hr
  have hb0 : (SelM.getCh w0 ch).buffer = [] := by
    rw [← List.isEmpty_iff]
    revert h1
    cases (SelM.getCh w0 ch).buffer.isEmpty <;> simp
  have hbw : (SelM.getCh w ch).buffer = [] := (hI.buf ch).trans hb0
  have hcw : (SelM.getCh w ch).closed = false := (hI.clo ch).trans h2
  have hssw : SelM.sendStatus mySid w.latched (SelM.getCh w ch) = false := by
    rw [hI.latch, hI.snd ch hchS]
    exact h3
  rw [SelM.sendStatus] at hssw
  have hdrain := selm_drainSends_none mySid (SelM.getCh w ch).blockedSends w hssw
  refine ⟨SelM.setCh w ch {SelM.getCh w ch with blockedSends := [], blockedReceives := (SelM.getCh w ch).blockedReceives ++ [reg]}, ?_, ?_⟩
  · simp [SelM.receiveAsyncImpl, hbw, hcw, hdrain]
  · refine selm_Ist_update mySid w0 w SC RC ch hI _ rfl rfl rfl (Or.inr ?_) (Or.inl hchR)
    simp only [SelM.sendStatus, List.any_nil]
    exact h3.symm

/-- Probing a send case whose channel is ready at call time succeeds. -/
theorem selm_send_probe_ready (mySid : Nat) (w0 w : SelM.World) (SC RC : List Nat)
    (ch : Nat) (v : SelM.Val) (reg : SelM.SendCb) (hI : SelM.Ist mySid w0 w SC RC)
    (hchR : ¬ ch ∈ RC) (hr : SelM.sendReady mySid w0 ch = true) :
    ∃ w2 rb2, SelM.sendAsyncImpl mySid ch v (some reg) w none = some (true, w2, rb2) := by
  rw [SelM.sendReady, Bool.and_eq_true] at hr
  have hc0 : (SelM.getCh w0 ch).closed = false := by
    have := hr.1
    revert this
    cases (SelM.getCh w0 ch).closed <;> simp
  have hcw : (SelM.getCh w ch).closed = false := (hI.clo ch).trans hc0
  cases hrs : SelM.recvStatus mySid w0.latched (SelM.getCh w0 ch) with
  | true =>
    have hrsw : SelM.recvStatus mySid w.latched (SelM.getCh w ch) = true := by
      rw [hI.latch, hI.rcv ch hchR]
      exact hrs
    rw [SelM.recvStatus] at hrsw
    obtain ⟨rest, w2, rb2, hd⟩ :=
      selm_drainRecvs_some mySid (SelM.getCh w ch).blockedReceives w hrsw
    refine ⟨SelM.setCh w2 ch {SelM.getCh w ch with blockedReceives := rest}, rb2, ?_⟩
    simp [SelM.sendAsyncImpl, hcw, hd]
  | false =>
    have hroom0 : (SelM.getCh w0 ch).buffer.length < (SelM.getCh w0 ch).size := by
      have h2 := hr.2
      rw [Bool.or_eq_true] at h2
      rcases h2 with h2 | h2
      · rw [hrs] at h2
        cases h2
      · exact of_decide_eq_true h2
    have hrsw : SelM.recvStatus mySid w.latched (SelM.getCh w ch) = false := by
      rw [hI.latch, hI.rcv ch hchR]
      exact hrs
    rw [SelM.recvStatus] at hrsw
    have hdrain := selm_drainRecvs_none mySid (SelM.getCh w ch).blockedReceives w hrsw
    have hroomw : (SelM.getCh w ch).buffer.length < (SelM.getCh w ch).size := by
      rw [hI.buf ch, hI.siz ch]
      exact hroom0
    refine ⟨SelM.setCh w ch {SelM.getCh w ch with buffer := (SelM.getCh w ch).buffer ++ [v], blockedReceives := []}, none, ?_⟩
    simp [SelM.sendAsyncImpl, hcw, hdrain, hroomw]

/-- Probing a send case whose (open) channel is not ready parks the value
with the case's callback and preserves the invariant. -/
theorem selm_send_probe_not_ready (mySid : Nat) (w0 w : SelM.World) (SC RC : List Nat)
    (ch : Nat) (v : SelM.Val) (reg : SelM.SendCb) (hI : SelM.Ist mySid w0 w SC RC)
    (hchS : ch ∈ SC) (hchR : ¬ ch ∈ RC)
    (hclo0 : (SelM.getCh w0 ch).closed = false)
    (hr : SelM.sendReady mySid w0 ch = false) :
    ∃ w2, SelM.sendAsyncImpl mySid ch v (some reg) w none = some (false, w2, none) ∧
      SelM.Ist mySid w0 w2 SC RC := by
  rw [SelM.sendReady, hclo0] at hr
  simp only [Bool.not_false, Bool.true_and] at hr
  rw [Bool.or_eq_false_iff] at hr
  obtain ⟨hrs0, hroomd⟩ := hr
  have hroom0 : ¬ (SelM.getCh w0 ch).buffer.length < (SelM.getCh w0 ch).size :=
    of_decide_eq_false hroomd
  have hcw : (SelM.getCh w ch).closed = false := (hI.clo ch).trans hclo0
  have hrsw : SelM.recvStatus mySid w.latched (SelM.getCh w ch) = false := by
    rw [hI.latch, hI.rcv ch hchR]
    exact hrs0
  rw [SelM.recvStatus] at hrsw
  have hdrain := selm_drainRecvs_none mySid (SelM.getCh w ch).blockedReceives w hrsw
  have hroomw : ¬ (SelM.getCh w ch).buffer.length < (SelM.getCh w ch).size := by
    rw [hI.buf ch, hI.siz ch]
    exact hroom0
  refine ⟨SelM.setCh w ch {SelM.getCh w ch with blockedReceives := [], blockedSends := (SelM.getCh w ch).blockedSends ++ [(v, reg)]}, ?_, ?_⟩
  · simp [SelM.sendAsyncImpl, hcw, hdrain, hroomw]
  · refine selm_Ist_update mySid w0 w SC RC ch hI _ rfl rfl rfl (Or.inl hchS) (Or.inr ?_)
    simp only [SelM.recvStatus, List.any_nil]
    exact hrs0.symm

/-- The probe loop, driven by call-time readiness: when no send and
receive case share a channel and no send case sits on a closed channel,
the loop fires exactly the first ready case (with the insertion-order
offset `k`), and when no case is ready it falls through, keeping the
invariant. -/
theorem selm_probe_aux (mySid : Nat) (w0 : SelM.World) (SC RC : List Nat)
    (hdisj : ∀ ch, ch ∈ RC → ¬ ch ∈ SC) :
    ∀ (cs : List SelM.SCase) (k : Nat) (w : SelM.World),
    (∀ ch, ch ∈ SelM.sendChans cs → ch ∈ SC) →
    (∀ ch, ch ∈ SelM.recvChans cs → ch ∈ RC) →
    (∀ ch, ch ∈ SelM.sendChans cs → (SelM.getCh w0 ch).closed = false) →
    SelM.Ist mySid w0 w SC RC →
    ((∀ j, SelM.firstReady mySid w0 cs = some j →
        ∃ w2 rb2, SelM.probeCases mySid k cs w none = some (some (k + j), w2, rb2)) ∧
      (SelM.firstReady mySid w0 cs = none →
        ∃ w2, SelM.probeCases mySid k cs w none = some (none, w2, none) ∧
          SelM.Ist mySid w0 w2 SC RC)) := by
  intro cs
  induction cs with
  | nil =>
    intro k w _ _ _ hI
    constructor
    · intro j hj
      cases hj
    · intro _
      exact ⟨w, rfl, hI⟩
  | cons sc rest ih =>
    intro k w hS hR hclo hI
    cases sc with
    | recv ch =>
      have hchR : ch ∈ RC := hR ch (List.mem_cons_self _ _)
      have hchS : ¬ ch ∈ SC := hdisj ch hchR
      cases hready : SelM.recvReady mySid w0 ch with
      | true =>
        have hcr : SelM.caseReady mySid w0 (.recv ch) = true := hready
        constructor
        · intro j hj
          rw [SelM.firstReady, if_pos hcr] at hj
          obtain rfl : j = 0 := (Option.some.inj hj).symm
          obtain ⟨v2, ok, more, w2, rb2, hprobe, hfire⟩ :=
            selm_recv_probe_ready mySid w0 w SC RC ch (.sel mySid k) hI hchS hready
          refine ⟨w2, rb2, ?_⟩
          rw [SelM.probeCases]
          show (match SelM.receiveAsyncImpl mySid ch (some (.sel mySid k)) w none with
            | ((_, ok, more), w2, rb2) =>
              if ok || !more then some (some k, w2, rb2)
              else SelM.probeCases mySid (k + 1) rest w2 rb2) = _
          rw [hprobe]
          show (if ok || !more then some (some k, w2, rb2)
            else SelM.probeCases mySid (k + 1) rest w2 rb2) = _
          rw [if_pos hfire, Nat.add_zero]
        · intro hnone
          rw [SelM.firstReady, if_pos hcr] at hnone
          cases hnone
      | false =>
        have hcr : SelM.caseReady mySid w0 (.recv ch) = false := hready
        obtain ⟨w2, hprobe, hI2⟩ :=
          selm_recv_probe_not_ready mySid w0 w SC RC ch (.sel mySid k) hI hchS hchR hready
        have ihx := ih (k + 1) w2 (fun ch2 h => hS ch2 h) (fun ch2 h => hR ch2 (List.mem_cons_of_mem _ h))
          (fun ch2 h => hclo ch2 h) hI2
        constructor
        · intro j hj
          rw [SelM.firstReady, if_neg (by simp [hcr])] at hj
          rcases hfr : SelM.firstReady mySid w0 rest with _ | j0
          · rw [hfr] at hj
            cases hj
          · rw [hfr] at hj
            obtain rfl : j = j0 + 1 := (Option.some.inj hj).symm
            obtain ⟨w3, rb3, hp⟩ := ihx.1 j0 hfr
            refine ⟨w3, rb3, ?_⟩
            rw [SelM.probeCases]
            show (match SelM.receiveAsyncImpl mySid ch (some (.sel mySid k)) w none with
              | ((_, ok, more), w2, rb2) =>
                if ok || !more then some (some k, w2, rb2)
                else SelM.probeCases mySid (k + 1) rest w2 rb2) = _
            rw [hprobe]
            show SelM.probeCases mySid (k + 1) rest w2 none = _
            rw [hp]
            rw [show (k + 1) + j0 = k + (j0 + 1) from by omega]
        · intro hnone
          rw [SelM.firstReady, if_neg (by simp [hcr])] at hnone
          rcases hfr : SelM.firstReady mySid w0 rest with _ | j0
          · obtain ⟨w3, hp, hI3⟩ := ihx.2 hfr
            refine ⟨w3, ?_, hI3⟩
            rw [SelM.probeCases]
            show (match SelM.receiveAsyncImpl mySid ch (some (.sel mySid k)) w none with
              | ((_, ok, more), w2, rb2) =>
                if ok || !more then some (some k, w2, rb2)
                else SelM.probeCases mySid (k + 1) rest w2 rb2) = _
            rw [hprobe]
            show SelM.probeCases mySid (k + 1) rest w2 none = _
            exact hp
          · rw [hfr] at hnone
            cases hnone
    | recvMore ch =>
      have hchR : ch ∈ RC := hR ch (List.mem_cons_self _ _)
      have hchS : ¬ ch ∈ SC := hdisj ch hchR
      cases hready : SelM.recvReady mySid w0 ch with
      | true =>
        have hcr : SelM.caseReady mySid w0 (.recvMore ch) = true := hready
        constructor
        · intro j hj
          rw [SelM.firstReady, if_pos hcr] at hj
          obtain rfl : j = 0 := (Option.some.inj hj).symm
          obtain ⟨v2, ok, more, w2, rb2, hprobe, hfire⟩ :=
            selm_recv_probe_ready mySid w0 w SC RC ch (.sel mySid k) hI hchS hready
          refine ⟨w2, rb2, ?_⟩
          rw [SelM.probeCases]
          show (match SelM.receiveAsyncImpl mySid ch (some (.sel mySid k)) w none with
            | ((_, ok, more), w2, rb2) =>
              if ok || !more then some (some k, w2, rb2)
              else SelM.probeCases mySid (k + 1) rest w2 rb2) = _
          rw [hprobe]
          show (if ok || !more then some (some k, w2, rb2)
            else SelM.probeCases mySid (k + 1) rest w2 rb2) = _
          rw [if_pos hfire, Nat.add_zero]
        · intro hnone
          rw [SelM.firstReady, if_pos hcr] at hnone
          cases hnone
      | false =>
        have hcr : SelM.caseReady mySid w0 (.recvMore ch) = false := hready
        obtain ⟨w2, hprobe, hI2⟩ :=
          selm_recv_probe_not_ready mySid w0 w SC RC ch (.sel mySid k) hI hchS hchR hready
        have ihx := ih (k + 1) w2 (fun ch2 h => hS ch2 h) (fun ch2 h => hR ch2 (List.mem_cons_of_mem _ h))
          (fun ch2 h => hclo ch2 h) hI2
        constructor
        · intro j hj
          rw [SelM.firstReady, if_neg (by simp [hcr])] at hj
          rcases hfr : SelM.firstReady mySid w0 rest with _ | j0
          · rw [hfr] at hj
            cases hj
          · rw [hfr] at hj
            obtain rfl : j = j0 + 1 := (Option.some.inj hj).symm
            obtain ⟨w3, rb3, hp⟩ := ihx.1 j0 hfr
            refine ⟨w3, rb3, ?_⟩
            rw [SelM.probeCases]
            show (match SelM.receiveAsyncImpl mySid ch (some (.sel mySid k)) w none with
              | ((_, ok, more), w2, rb2) =>
                if ok || !more then some (some k, w2, rb2)
                else SelM.probeCases mySid (k + 1) rest w2 rb2) = _
            rw [hprobe]
            show SelM.probeCases mySid (k + 1) rest w2 none = _
            rw [hp]
            rw [show (k + 1) + j0 = k + (j0 + 1) from by omega]
        · intro hnone
          rw [SelM.firstReady, if_neg (by simp [hcr])] at hnone
          rcases hfr : SelM.firstReady mySid w0 rest with _ | j0
          · obtain ⟨w3, hp, hI3⟩ := ihx.2 hfr
            refine ⟨w3, ?_, hI3⟩
            rw [SelM.probeCases]
            show (match SelM.receiveAsyncImpl mySid ch (some (.sel mySid k)) w none with
              | ((_, ok, more), w2, rb2) =>
                if ok || !more then some (some k, w2, rb2)
                else SelM.probeCases mySid (k + 1) rest w2 rb2) = _
            rw [hprobe]
            show SelM.probeCases mySid (k + 1) rest w2 none = _
            exact hp
          · rw [hfr] at hnone
            cases hnone
    | send ch v =>
      have hchS : ch ∈ SC := hS ch (List.mem_cons_self _ _)
      have hchR : ¬ ch ∈ RC := fun hcr => hdisj ch hcr hchS
      have hclo0 : (SelM.getCh w0 ch).closed = false := hclo ch (List.mem_cons_self _ _)
      cases hready : SelM.sendReady mySid w0 ch with
      | true =>
        have hcr : SelM.caseReady mySid w0 (.send ch v) = true := hready
        constructor
        · intro j hj
          rw [SelM.firstReady, if_pos hcr] at hj
          obtain rfl : j = 0 := (Option.some.inj hj).symm
          obtain ⟨w2, rb2, hprobe⟩ :=
            selm_send_probe_ready mySid w0 w SC RC ch v (.sel mySid k) hI hchR hready
          refine ⟨w2, rb2, ?_⟩
          rw [SelM.probeCases]
          show (match SelM.sendAsyncImpl mySid ch v (some (.sel mySid k)) w none with
            | none => none
            | some (ok, w2, rb2) =>
              if ok then some (some k, w2, rb2)
              else SelM.probeCases mySid (k + 1) rest w2 rb2) = _
          rw [hprobe]
          show some (some k, w2, rb2) = _
          rw [Nat.add_zero]
        · intro hnone
          rw [SelM.firstReady, if_pos hcr] at hnone
          cases hnone
      | false =>
        have hcr : SelM.caseReady mySid w0 (.send ch v) = false := hready
        obtain ⟨w2, hprobe, hI2⟩ :=
          selm_send_probe_not_ready mySid w0 w SC RC ch v (.sel mySid k) hI hchS hchR hclo0 hready
        have ihx := ih (k + 1) w2 (fun ch2 h => hS ch2 (List.mem_cons_of_mem _ h))
          (fun ch2 h => hR ch2 h) (fun ch2 h => hclo ch2 (List.mem_cons_of_mem _ h)) hI2
        constructor
        · intro j hj
          rw [SelM.firstReady, if_neg (by simp [hcr])] at hj
          rcases hfr : SelM.firstReady mySid w0 rest with _ | j0
          · rw [hfr] at hj
            cases hj
          · rw [hfr] at hj
            obtain rfl : j = j0 + 1 := (Option.some.inj hj).symm
            obtain ⟨w3, rb3, hp⟩ := ihx.1 j0 hfr
            refine ⟨w3, rb3, ?_⟩
            rw [SelM.probeCases]
            show (match SelM.sendAsyncImpl mySid ch v (some (.sel mySid k)) w none with
              | none => none
              | some (ok, w2, rb2) =>
                if ok then some (some k, w2, rb2)
                else SelM.probeCases mySid (k + 1) rest w2 rb2) = _
            rw [hprobe]
            show SelM.probeCases mySid (k + 1) rest w2 none = _
            rw [hp]
            rw [show (k + 1) + j0 = k + (j0 + 1) from by omega]
        · intro hnone
          rw [SelM.firstReady, if_neg (by simp [hcr])] at hnone
          rcases hfr : SelM.firstReady mySid w0 rest with _ | j0
          · obtain ⟨w3, hp, hI3⟩ := ihx.2 hfr
            refine ⟨w3, ?_, hI3⟩
            rw [SelM.probeCases]
            show (match SelM.sendAsyncImpl mySid ch v (some (.sel mySid k)) w none with
              | none => none
              | some (ok, w2, rb2) =>
                if ok then some (some k, w2, rb2)
                else SelM.probeCases mySid (k + 1) rest w2 rb2) = _
            rw [hprobe]
            show SelM.probeCases mySid (k + 1) rest w2 none = _
            exact hp
          · rw [hfr] at hnone
            cases hnone
    | futureCase rdy =>
      cases rdy with
      | true =>
        constructor
        · intro j hj
          rw [SelM.firstReady, if_pos (show SelM.caseReady mySid w0 (.futureCase true) = true from rfl)] at hj
          obtain rfl : j = 0 := (Option.some.inj hj).symm
          refine ⟨w, none, ?_⟩
          rw [SelM.probeCases]
          show some (some k, w, none) = _
          rw [Nat.add_zero]
        · intro hnone
          rw [SelM.firstReady, if_pos (show SelM.caseReady mySid w0 (.futureCase true) = true from rfl)] at hnone
          cases hnone
      | false =>
        have ihx := ih (k + 1) w (fun ch2 h => hS ch2 h) (fun ch2 h => hR ch2 h)
          (fun ch2 h => hclo ch2 h) hI
        constructor
        · intro j hj
          rw [SelM.firstReady, if_neg (by simp [SelM.caseReady])] at hj
          rcases hfr : SelM.firstReady mySid w0 rest with _ | j0
          · rw [hfr] at hj
            cases hj
          · rw [hfr] at hj
            obtain rfl : j = j0 + 1 := (Option.some.inj hj).symm
            obtain ⟨w3, rb3, hp⟩ := ihx.1 j0 hfr
            refine ⟨w3, rb3, ?_⟩
            rw [SelM.probeCases]
            show SelM.probeCases mySid (k + 1) rest w none = _
            rw [hp]
            rw [show (k + 1) + j0 = k + (j0 + 1) from by omega]
        · intro hnone
          rw [SelM.firstReady, if_neg (by simp [SelM.caseReady])] at hnone
          rcases hfr : SelM.firstReady mySid w0 rest with _ | j0
          · obtain ⟨w3, hp, hI3⟩ := ihx.2 hfr
            refine ⟨w3, ?_, hI3⟩
            rw [SelM.probeCases]
            show SelM.probeCases mySid (k + 1) rest w none = _
            exact hp
          · rw [hfr] at hnone
            cases hnone

/-- Claim C3, corrected: when no send case and receive case of the
selector share a channel and no send case sits on a closed channel, a
`Select` with at least one synchronously-ready case fires the earliest
ready case (in insertion order) and invokes no other case's handler.
Without the shared-channel restriction the probe loop self-interacts: an
earlier non-ready send case parks its value, a later receive case on the
same channel consumes it and fires out of order. -/
theorem c3_amended (mySid : Nat) (w : SelM.World) (cases0 : List SelM.SCase)
    (hasDefault : Bool) (j : Nat)
    (hdisj : ∀ ch, ch ∈ SelM.recvChans cases0 → ¬ ch ∈ SelM.sendChans cases0)
    (hclo : ∀ ch, ch ∈ SelM.sendChans cases0 → (SelM.getCh w ch).closed = false)
    (hfr : SelM.firstReady mySid w cases0 = some j) :
    ∃ w2, SelM.runSelect mySid cases0 hasDefault w = .fired j w2 := by
  have hIst : SelM.Ist mySid w w (SelM.sendChans cases0) (SelM.recvChans cases0) :=
    ⟨rfl, fun _ => rfl, fun _ => rfl, fun _ => rfl, fun _ _ => rfl, fun _ _ => rfl⟩
  obtain ⟨w2, rb2, hp⟩ := (selm_probe_aux mySid w (SelM.sendChans cases0)
    (SelM.recvChans cases0) hdisj cases0 0 w (fun _ h => h) (fun _ h => h) hclo hIst).1 j hfr
  refine ⟨w2, ?_⟩
  rw [SelM.runSelect, hp]
  show SelM.SelOutcome.fired (0 + j) w2 = SelM.SelOutcome.fired j w2
  rw [Nat.zero_add]

/-- Claim C3 as stated is false: with cases send-on-0, receive-on-0,
receive-on-1 over an empty unbuffered channel 0 and a loaded channel 1,
only case 2 is ready when `Select` is called, yet case 1 fires (the
receive probe consumes the value the send probe just parked). -/
theorem c3_counterexample : ¬ SelM.C3Stated := fun h => by
  obtain ⟨w2, hw⟩ := h 0 SelM.wC3 SelM.casesC3 false 2 (by decide)
  rw [show SelM.runSelect 0 SelM.casesC3 false SelM.wC3 =
    SelM.SelOutcome.fired 1 SelM.wC3 from by decide] at hw
  injection hw with h1 h2
  exact absurd h1 (by decide)

theorem c3_amended_witness :
    (SelM.firstReady 0 ⟨[⟨1, [4], [], [], false⟩], []⟩ [SelM.SCase.recv 0] = some 0) ∧
    ∃ w2, SelM.runSelect 0 [SelM.SCase.recv 0] false ⟨[⟨1, [4], [], [], false⟩], []⟩ =
      SelM.SelOutcome.fired 0 w2 :=
  ⟨by decide, c3_amended 0 ⟨[⟨1, [4], [], [], false⟩], []⟩ [SelM.SCase.recv 0] false 0
    (fun ch hch hsc => by simp [SelM.sendChans] at hsc)
    (fun ch hch => by simp [SelM.sendChans] at hch)
    (by decide)⟩

/-- Claim C4, corrected: on a selector with one receive case on an empty
open channel plus a default, `Select` fires the default and returns — but
the receive callback registered during the probe stays parked in the
channel's blocked-receivers queue (nothing removes it). -/
theorem c4_amended (mySid ch : Nat) (w : SelM.World) (c : SelM.ChanS)
    (hc : w.chans[ch]? = some c) (hb : c.buffer = []) (hcl : c.closed = false)
    (hbs : c.blockedSends = []) :
    SelM.runSelect mySid [SelM.SCase.recv ch] true w =
      .defaulted (SelM.setCh w ch {c with blockedSends := [], blockedReceives := c.blockedReceives ++ [SelM.RecvCb.sel mySid 0]}) := by
  have hgc : SelM.getCh w ch = c := by
    rw [SelM.getCh, List.getD_eq_getElem?_getD, hc]
    rfl
  have hrecv : SelM.receiveAsyncImpl mySid ch (some (.sel mySid 0)) w none =
      ((none, false, true),
        SelM.setCh w ch {c with blockedSends := [], blockedReceives := c.blockedReceives ++ [SelM.RecvCb.sel mySid 0]}, none) := by
    simp [SelM.receiveAsyncImpl, hgc, hb, hcl, hbs, SelM.drainSends]
  have hpc : SelM.probeCases mySid 0 [SelM.SCase.recv ch] w none =
      some (none,
        SelM.setCh w ch {c with blockedSends := [], blockedReceives := c.blockedReceives ++ [SelM.RecvCb.sel mySid 0]}, none) := by
    rw [SelM.probeCases]
    show (match SelM.receiveAsyncImpl mySid ch (some (.sel mySid 0)) w none with
      | ((_, ok, more), w2, rb2) =>
        if ok || !more then some (some 0, w2, rb2)
        else SelM.probeCases mySid 1 [] w2 rb2) = _
    rw [hrecv]
    rfl
  rw [SelM.runSelect, hpc]
  rfl

/-- Claim C4 as stated is false: on the one-channel world `wC4`, the
default fires but the selector's receive callback remains in channel 0's
blocked-receivers queue after `Select` returns. -/
theorem c4_counterexample : ¬ SelM.C4Stated := fun h => by
  obtain ⟨w2, hd, hr⟩ := h 0 0 SelM.wC4 ⟨0, [], [], [], false⟩ (by decide) rfl rfl rfl rfl
  rw [show SelM.runSelect 0 [SelM.SCase.recv 0] true SelM.wC4 =
    SelM.SelOutcome.defaulted SelM.w4res from by decide] at hd
  injection hd with h2
  rw [← h2] at hr
  exact absurd hr (by decide)

theorem c4_amended_witness :
    SelM.runSelect 0 [SelM.SCase.recv 0] true SelM.wC4 =
      .defaulted (SelM.setCh SelM.wC4 0 {(⟨0, [], [], [], false⟩ : SelM.ChanS) with blockedSends := [], blockedReceives := ([] : List SelM.RecvCb) ++ [SelM.RecvCb.sel 0 0]}) :=
  c4_amended 0 0 SelM.wC4 ⟨0, [], [], [], false⟩ rfl rfl rfl rfl
